import Mathlib

/-!
Verification development for the obsidian-r2-sync repository.

The definitions below are a shallow embedding of the repository's
TypeScript sources:

* the shared data model (packages/shared/src/types.ts);
* the three-manifest diff and its manifest-application helper
  (packages/shared: diffManifests, applyDiffToManifest);
* the worker routes (manifest conditional PUT, file routes) and the auth
  middleware;
* the plugin's sync engine (retry loop, step-10 manifest rebuild,
  exclude-glob matching, three-way merge) and the transfer queue.

JavaScript Records are embedded as association lists (String × FileEntry)
with the JS object-assignment and delete semantics made explicit
(recordSet / recordDelete).  Crypto (SHA-256, HMAC) and the
diff-match-patch library are treated as abstract function parameters.
-/

/-- Shared constant MAX_RETRIES = 3 (packages/shared/src/constants.ts); the
plugin's merger.ts declares a local constant of the same name and value. -/
def MAX_RETRIES : Nat := 3

/-- Shared constant RETRY_BACKOFF_MS = 1000. -/
def RETRY_BACKOFF_MS : Nat := 1000

/-- Shared constant MAX_CONCURRENT_TRANSFERS = 5. -/
def MAX_CONCURRENT_TRANSFERS : Nat := 5

/-- FileEntry from packages/shared/src/types.ts. -/
structure FileEntry where
  path : String
  hash : String
  mtime : Nat
  size : Nat
  lastModifiedBy : String
deriving DecidableEq, Repr

/-- SyncManifest from packages/shared/src/types.ts.  The files Record is an
association list from path to FileEntry. -/
structure SyncManifest where
  files : List (String × FileEntry)
  lastUpdated : String
  lastUpdatedBy : String
deriving DecidableEq, Repr

/-- ConflictEntry from packages/shared/src/types.ts.  The TS fields are
named local and remote; local is a Lean keyword, so the embedding names
them localE and remoteE. -/
structure ConflictEntry where
  path : String
  localE : FileEntry
  remoteE : FileEntry
  baseHash : Option String
deriving DecidableEq, Repr

/-- DiffResult from packages/shared/src/types.ts. -/
structure DiffResult where
  toUpload : List FileEntry
  toDownload : List FileEntry
  toDeleteRemote : List String
  toDeleteLocal : List String
  conflicts : List ConflictEntry
deriving DecidableEq, Repr

/-- Reading files[path] on a JS Record embedded as an association list. -/
def getFile (files : List (String × FileEntry)) (p : String) : Option FileEntry :=
  (files.find? (fun kv => kv.1 == p)).map (·.2)

/-- JS assignment files[k] = v: overwrites in place when the key exists,
otherwise appends the new key at the end (JS own-property insertion order). -/
def recordSet (files : List (String × FileEntry)) (k : String) (v : FileEntry) :
    List (String × FileEntry) :=
  if files.any (fun kv => kv.1 == k) then
    files.map (fun kv => if kv.1 == k then (k, v) else kv)
  else
    files ++ [(k, v)]

/-- JS delete files[k]. -/
def recordDelete (files : List (String × FileEntry)) (k : String) :
    List (String × FileEntry) :=
  files.filter (fun kv => kv.1 != k)

/-- Key list of a manifest (Object.keys). -/
def manifestKeys (m : SyncManifest) : List String :=
  m.files.map (·.1)

/-- Spec invariant I1: every entry's path field equals its key in the files
Record (types.ts documents files as a map of vault-relative path to
FileEntry, and the JSON round-trip keeps them in sync). -/
def wellFormed (m : SyncManifest) : Prop :=
  ∀ kv ∈ m.files, kv.2.path = kv.1

instance (m : SyncManifest) : Decidable (wellFormed m) := by
  unfold wellFormed; infer_instance

/-- JS Set insertion-order dedup, generalized over the already-seen keys. -/
def dedupFirstAux : List String → List String → List String
  | _, [] => []
  | seen, a :: l =>
    if a ∈ seen then dedupFirstAux seen l else a :: dedupFirstAux (a :: seen) l

/-- The iteration order of new Set([...keys(local), ...keys(remote),
...keys(base)]): first occurrence wins. -/
def dedupFirst (l : List String) : List String :=
  dedupFirstAux [] l

/-- The union of key sets iterated by diffManifests (manifest.ts, allPaths). -/
def allPaths (localM remoteM : SyncManifest) (base : Option SyncManifest) : List String :=
  dedupFirst (manifestKeys localM ++ manifestKeys remoteM ++
    (match base with
     | some b => manifestKeys b
     | none => []))

/-- The per-path decision made inside diffManifests' loop. -/
inductive DiffAction where
  | noop : DiffAction
  | upload : FileEntry → DiffAction
  | download : FileEntry → DiffAction
  | deleteRemote : String → DiffAction
  | deleteLocal : String → DiffAction
  | conflictA : ConflictEntry → DiffAction
deriving DecidableEq, Repr

/-- Body of the for-loop of diffManifests (manifest.ts), translated
branch-for-branch; instead of pushing onto the result arrays it returns
which bucket the path goes to (pushAction performs the push). -/
def classify (localM remoteM : SyncManifest) (base : Option SyncManifest)
    (path : String) : DiffAction :=
  let localEntry := getFile localM.files path
  let remoteEntry := getFile remoteM.files path
  let baseEntry := base.bind (fun b => getFile b.files path)
  let localChanged :=
    match localEntry, baseEntry with
    | some l, some b => l.hash != b.hash
    | _, _ => false
  let remoteChanged :=
    match remoteEntry, baseEntry with
    | some r, some b => r.hash != b.hash
    | _, _ => false
  match localEntry, remoteEntry with
  | some l, none =>
    (match baseEntry with
     | some b =>
       if localChanged then
         DiffAction.conflictA { path := path, localE := l, remoteE := b, baseHash := some b.hash }
       else
         DiffAction.deleteLocal path
     | none => DiffAction.upload l)
  | none, some r =>
    (match baseEntry with
     | some b =>
       if remoteChanged then
         DiffAction.conflictA { path := path, localE := b, remoteE := r, baseHash := some b.hash }
       else
         DiffAction.deleteRemote path
     | none => DiffAction.download r)
  | some l, some r =>
    if l.hash == r.hash then
      DiffAction.noop
    else
      (match base with
       | some _ =>
         if localChanged && !remoteChanged then
           DiffAction.upload l
         else if !localChanged && remoteChanged then
           DiffAction.download r
         else if localChanged && remoteChanged then
           DiffAction.conflictA
             { path := path, localE := l, remoteE := r, baseHash := baseEntry.map (·.hash) }
         else
           DiffAction.conflictA
             { path := path, localE := l, remoteE := r, baseHash := baseEntry.map (·.hash) }
       | none =>
         DiffAction.conflictA { path := path, localE := l, remoteE := r, baseHash := none })
  | none, none => DiffAction.noop

/-- Appends the classified path to the corresponding DiffResult bucket
(the push calls of diffManifests). -/
def pushAction (acc : DiffResult) : DiffAction → DiffResult
  | DiffAction.noop => acc
  | DiffAction.upload e => { acc with toUpload := acc.toUpload ++ [e] }
  | DiffAction.download e => { acc with toDownload := acc.toDownload ++ [e] }
  | DiffAction.deleteRemote p => { acc with toDeleteRemote := acc.toDeleteRemote ++ [p] }
  | DiffAction.deleteLocal p => { acc with toDeleteLocal := acc.toDeleteLocal ++ [p] }
  | DiffAction.conflictA c => { acc with conflicts := acc.conflicts ++ [c] }

/-- diffManifests from the shared manifest module: iterate the deduplicated
union of key sets and push each path's classification. -/
def diffManifests (localM remoteM : SyncManifest) (base : Option SyncManifest) :
    DiffResult :=
  (allPaths localM remoteM base).foldl
    (fun acc p => pushAction acc (classify localM remoteM base p))
    { toUpload := [], toDownload := [], toDeleteRemote := [], toDeleteLocal := [],
      conflicts := [] }

/-- Bucket projections of an DiffAction, used to characterize the fold. -/
def actUpload : DiffAction → Option FileEntry
  | DiffAction.upload e => some e
  | _ => none

def actDownload : DiffAction → Option FileEntry
  | DiffAction.download e => some e
  | _ => none

def actDeleteRemote : DiffAction → Option String
  | DiffAction.deleteRemote p => some p
  | _ => none

def actDeleteLocal : DiffAction → Option String
  | DiffAction.deleteLocal p => some p
  | _ => none

def actConflict : DiffAction → Option ConflictEntry
  | DiffAction.conflictA c => some c
  | _ => none

lemma pushAction_toUpload (acc : DiffResult) (a : DiffAction) :
    (pushAction acc a).toUpload = acc.toUpload ++ (actUpload a).toList := by
  cases a <;> simp [pushAction, actUpload]

lemma pushAction_toDownload (acc : DiffResult) (a : DiffAction) :
    (pushAction acc a).toDownload = acc.toDownload ++ (actDownload a).toList := by
  cases a <;> simp [pushAction, actDownload]

lemma pushAction_toDeleteRemote (acc : DiffResult) (a : DiffAction) :
    (pushAction acc a).toDeleteRemote = acc.toDeleteRemote ++ (actDeleteRemote a).toList := by
  cases a <;> simp [pushAction, actDeleteRemote]

lemma pushAction_toDeleteLocal (acc : DiffResult) (a : DiffAction) :
    (pushAction acc a).toDeleteLocal = acc.toDeleteLocal ++ (actDeleteLocal a).toList := by
  cases a <;> simp [pushAction, actDeleteLocal]

lemma pushAction_conflicts (acc : DiffResult) (a : DiffAction) :
    (pushAction acc a).conflicts = acc.conflicts ++ (actConflict a).toList := by
  cases a <;> simp [pushAction, actConflict]

section FoldCharacterization

variable (localM remoteM : SyncManifest) (base : Option SyncManifest)

lemma foldl_toUpload (paths : List String) (acc : DiffResult) :
    (paths.foldl (fun a p => pushAction a (classify localM remoteM base p)) acc).toUpload
      = acc.toUpload ++ paths.filterMap (fun p => actUpload (classify localM remoteM base p)) := by
  induction paths generalizing acc with
  | nil => simp
  | cons hd tl ih =>
    simp only [List.foldl_cons, List.filterMap_cons]
    rw [ih, pushAction_toUpload]
    cases h : actUpload (classify localM remoteM base hd) <;> simp [h]

lemma foldl_toDownload (paths : List String) (acc : DiffResult) :
    (paths.foldl (fun a p => pushAction a (classify localM remoteM base p)) acc).toDownload
      = acc.toDownload ++ paths.filterMap (fun p => actDownload (classify localM remoteM base p)) := by
  induction paths generalizing acc with
  | nil => simp
  | cons hd tl ih =>
    simp only [List.foldl_cons, List.filterMap_cons]
    rw [ih, pushAction_toDownload]
    cases h : actDownload (classify localM remoteM base hd) <;> simp [h]

lemma foldl_toDeleteRemote (paths : List String) (acc : DiffResult) :
    (paths.foldl (fun a p => pushAction a (classify localM remoteM base p)) acc).toDeleteRemote
      = acc.toDeleteRemote ++ paths.filterMap (fun p => actDeleteRemote (classify localM remoteM base p)) := by
  induction paths generalizing acc with
  | nil => simp
  | cons hd tl ih =>
    simp only [List.foldl_cons, List.filterMap_cons]
    rw [ih, pushAction_toDeleteRemote]
    cases h : actDeleteRemote (classify localM remoteM base hd) <;> simp [h]

lemma foldl_toDeleteLocal (paths : List String) (acc : DiffResult) :
    (paths.foldl (fun a p => pushAction a (classify localM remoteM base p)) acc).toDeleteLocal
      = acc.toDeleteLocal ++ paths.filterMap (fun p => actDeleteLocal (classify localM remoteM base p)) := by
  induction paths generalizing acc with
  | nil => simp
  | cons hd tl ih =>
    simp only [List.foldl_cons, List.filterMap_cons]
    rw [ih, pushAction_toDeleteLocal]
    cases h : actDeleteLocal (classify localM remoteM base hd) <;> simp [h]

lemma foldl_conflicts (paths : List String) (acc : DiffResult) :
    (paths.foldl (fun a p => pushAction a (classify localM remoteM base p)) acc).conflicts
      = acc.conflicts ++ paths.filterMap (fun p => actConflict (classify localM remoteM base p)) := by
  induction paths generalizing acc with
  | nil => simp
  | cons hd tl ih =>
    simp only [List.foldl_cons, List.filterMap_cons]
    rw [ih, pushAction_conflicts]
    cases h : actConflict (classify localM remoteM base hd) <;> simp [h]

lemma diffManifests_toUpload :
    (diffManifests localM remoteM base).toUpload
      = (allPaths localM remoteM base).filterMap
          (fun p => actUpload (classify localM remoteM base p)) := by
  unfold diffManifests
  rw [foldl_toUpload]
  simp

lemma diffManifests_toDownload :
    (diffManifests localM remoteM base).toDownload
      = (allPaths localM remoteM base).filterMap
          (fun p => actDownload (classify localM remoteM base p)) := by
  unfold diffManifests
  rw [foldl_toDownload]
  simp

lemma diffManifests_toDeleteRemote :
    (diffManifests localM remoteM base).toDeleteRemote
      = (allPaths localM remoteM base).filterMap
          (fun p => actDeleteRemote (classify localM remoteM base p)) := by
  unfold diffManifests
  rw [foldl_toDeleteRemote]
  simp

lemma diffManifests_toDeleteLocal :
    (diffManifests localM remoteM base).toDeleteLocal
      = (allPaths localM remoteM base).filterMap
          (fun p => actDeleteLocal (classify localM remoteM base p)) := by
  unfold diffManifests
  rw [foldl_toDeleteLocal]
  simp

lemma diffManifests_conflicts :
    (diffManifests localM remoteM base).conflicts
      = (allPaths localM remoteM base).filterMap
          (fun p => actConflict (classify localM remoteM base p)) := by
  unfold diffManifests
  rw [foldl_conflicts]
  simp

end FoldCharacterization

section ClassifyInversion

variable {localM remoteM : SyncManifest} {base : Option SyncManifest} {p : String}

lemma getFile_mem {files : List (String × FileEntry)} {e : FileEntry}
    (h : getFile files p = some e) : (p, e) ∈ files := by
  unfold getFile at h
  cases hf : files.find? (fun kv => kv.1 == p) with
  | none => simp [hf] at h
  | some kv =>
    have hmem := List.mem_of_find?_eq_some hf
    have hkey := List.find?_some hf
    simp only [beq_iff_eq] at hkey
    simp only [hf, Option.map_some'] at h
    cases kv with
    | mk k v =>
      simp only at hkey h
      subst hkey
      injection h with h
      subst h
      exact hmem

lemma getFile_path_eq {e : FileEntry} (wf : wellFormed localM)
    (h : getFile localM.files p = some e) : e.path = p :=
  wf _ (getFile_mem h)

lemma getFile_mem_keys {m : SyncManifest} {e : FileEntry}
    (h : getFile m.files p = some e) : p ∈ manifestKeys m := by
  have := getFile_mem h
  exact List.mem_map.2 ⟨(p, e), this, rfl⟩

lemma classify_upload {e : FileEntry}
    (h : classify localM remoteM base p = DiffAction.upload e) :
    getFile localM.files p = some e := by
  simp only [classify] at h
  repeat' split at h
  all_goals simp_all

lemma classify_download {e : FileEntry}
    (h : classify localM remoteM base p = DiffAction.download e) :
    getFile remoteM.files p = some e := by
  simp only [classify] at h
  repeat' split at h
  all_goals simp_all

lemma classify_deleteRemote {q : String}
    (h : classify localM remoteM base p = DiffAction.deleteRemote q) :
    q = p := by
  simp only [classify] at h
  repeat' split at h
  all_goals simp_all

lemma classify_deleteLocal {q : String}
    (h : classify localM remoteM base p = DiffAction.deleteLocal q) :
    q = p ∧ getFile remoteM.files p = none := by
  simp only [classify] at h
  repeat' split at h
  all_goals simp_all

lemma classify_conflict {c : ConflictEntry}
    (h : classify localM remoteM base p = DiffAction.conflictA c) :
    c.path = p := by
  simp only [classify] at h
  repeat' split at h
  all_goals (try cases h)
  all_goals simp_all

end ClassifyInversion

section BucketMembership

variable {localM remoteM : SyncManifest} {base : Option SyncManifest} {p : String}

lemma actUpload_eq_some {a : DiffAction} {e : FileEntry} :
    actUpload a = some e ↔ a = DiffAction.upload e := by
  cases a <;> simp [actUpload]

lemma actDownload_eq_some {a : DiffAction} {e : FileEntry} :
    actDownload a = some e ↔ a = DiffAction.download e := by
  cases a <;> simp [actDownload]

lemma actDeleteRemote_eq_some {a : DiffAction} {q : String} :
    actDeleteRemote a = some q ↔ a = DiffAction.deleteRemote q := by
  cases a <;> simp [actDeleteRemote]

lemma actDeleteLocal_eq_some {a : DiffAction} {q : String} :
    actDeleteLocal a = some q ↔ a = DiffAction.deleteLocal q := by
  cases a <;> simp [actDeleteLocal]

lemma actConflict_eq_some {a : DiffAction} {c : ConflictEntry} :
    actConflict a = some c ↔ a = DiffAction.conflictA c := by
  cases a <;> simp [actConflict]

lemma mem_dedupFirstAux {x : String} :
    ∀ (l seen : List String), x ∈ dedupFirstAux seen l ↔ (x ∈ l ∧ x ∉ seen) := by
  intro l
  induction l with
  | nil => intro seen; simp [dedupFirstAux]
  | cons a tl ih =>
    intro seen
    by_cases ha : a ∈ seen
    · simp only [dedupFirstAux, if_pos ha, ih, List.mem_cons]
      by_cases hxa : x = a <;> simp [hxa, ha]
    · simp only [dedupFirstAux, if_neg ha, List.mem_cons, ih]
      by_cases hxa : x = a <;> simp [hxa, ha]

lemma mem_dedupFirst {x : String} {l : List String} : x ∈ dedupFirst l ↔ x ∈ l := by
  unfold dedupFirst
  rw [mem_dedupFirstAux]
  simp

lemma mem_allPaths_of_localKey {e : FileEntry}
    (h : getFile localM.files p = some e) : p ∈ allPaths localM remoteM base := by
  unfold allPaths
  rw [mem_dedupFirst]
  exact List.mem_append.2 (Or.inl (List.mem_append.2 (Or.inl (getFile_mem_keys h))))

lemma mem_allPaths_of_remoteKey {e : FileEntry}
    (h : getFile remoteM.files p = some e) : p ∈ allPaths localM remoteM base := by
  unfold allPaths
  rw [mem_dedupFirst]
  exact List.mem_append.2 (Or.inl (List.mem_append.2 (Or.inr (getFile_mem_keys h))))

lemma mem_allPaths_of_baseKey {bm : SyncManifest} {e : FileEntry}
    (h : getFile bm.files p = some e) : p ∈ allPaths localM remoteM (some bm) := by
  unfold allPaths
  rw [mem_dedupFirst]
  exact List.mem_append.2 (Or.inr (getFile_mem_keys h))

lemma toUpload_any_iff (wfL : wellFormed localM) :
    ((diffManifests localM remoteM base).toUpload.any (fun e => e.path == p) = true)
      ↔ (p ∈ allPaths localM remoteM base ∧
          ∃ e, classify localM remoteM base p = DiffAction.upload e) := by
  rw [diffManifests_toUpload]
  simp only [List.any_eq_true, List.mem_filterMap, beq_iff_eq]
  constructor
  · rintro ⟨e, ⟨q, hq, hact⟩, hpath⟩
    rw [actUpload_eq_some] at hact
    have hget := classify_upload hact
    have hpq : e.path = q := getFile_path_eq wfL hget
    have : q = p := by rw [← hpq, hpath]
    subst this
    exact ⟨hq, e, hact⟩
  · rintro ⟨hp, e, hc⟩
    have hget := classify_upload hc
    exact ⟨e, ⟨p, hp, actUpload_eq_some.2 hc⟩, getFile_path_eq wfL hget⟩

lemma toDownload_any_iff (wfR : wellFormed remoteM) :
    ((diffManifests localM remoteM base).toDownload.any (fun e => e.path == p) = true)
      ↔ (p ∈ allPaths localM remoteM base ∧
          ∃ e, classify localM remoteM base p = DiffAction.download e) := by
  rw [diffManifests_toDownload]
  simp only [List.any_eq_true, List.mem_filterMap, beq_iff_eq]
  constructor
  · rintro ⟨e, ⟨q, hq, hact⟩, hpath⟩
    rw [actDownload_eq_some] at hact
    have hget := classify_download hact
    have hpq : e.path = q := getFile_path_eq wfR hget
    have : q = p := by rw [← hpq, hpath]
    subst this
    exact ⟨hq, e, hact⟩
  · rintro ⟨hp, e, hc⟩
    have hget := classify_download hc
    exact ⟨e, ⟨p, hp, actDownload_eq_some.2 hc⟩, getFile_path_eq wfR hget⟩

lemma toDeleteRemote_any_iff :
    ((diffManifests localM remoteM base).toDeleteRemote.any (fun q => q == p) = true)
      ↔ (p ∈ allPaths localM remoteM base ∧
          classify localM remoteM base p = DiffAction.deleteRemote p) := by
  rw [diffManifests_toDeleteRemote]
  simp only [List.any_eq_true, List.mem_filterMap, beq_iff_eq]
  constructor
  · rintro ⟨q, ⟨q', hq', hact⟩, rfl⟩
    rw [actDeleteRemote_eq_some] at hact
    have := classify_deleteRemote hact
    subst this
    exact ⟨hq', hact⟩
  · rintro ⟨hp, hc⟩
    exact ⟨p, ⟨p, hp, actDeleteRemote_eq_some.2 hc⟩, rfl⟩

lemma toDeleteLocal_any_iff :
    ((diffManifests localM remoteM base).toDeleteLocal.any (fun q => q == p) = true)
      ↔ (p ∈ allPaths localM remoteM base ∧
          classify localM remoteM base p = DiffAction.deleteLocal p) := by
  rw [diffManifests_toDeleteLocal]
  simp only [List.any_eq_true, List.mem_filterMap, beq_iff_eq]
  constructor
  · rintro ⟨q, ⟨q', hq', hact⟩, rfl⟩
    rw [actDeleteLocal_eq_some] at hact
    have := (classify_deleteLocal hact).1
    subst this
    exact ⟨hq', hact⟩
  · rintro ⟨hp, hc⟩
    exact ⟨p, ⟨p, hp, actDeleteLocal_eq_some.2 hc⟩, rfl⟩

lemma conflicts_any_iff :
    ((diffManifests localM remoteM base).conflicts.any (fun c => c.path == p) = true)
      ↔ (p ∈ allPaths localM remoteM base ∧
          ∃ c, classify localM remoteM base p = DiffAction.conflictA c) := by
  rw [diffManifests_conflicts]
  simp only [List.any_eq_true, List.mem_filterMap, beq_iff_eq]
  constructor
  · rintro ⟨c, ⟨q, hq, hact⟩, hpath⟩
    rw [actConflict_eq_some] at hact
    have hpq := classify_conflict hact
    have : q = p := by rw [← hpq, hpath]
    subst this
    exact ⟨hq, c, hact⟩
  · rintro ⟨hp, c, hc⟩
    exact ⟨c, ⟨p, hp, actConflict_eq_some.2 hc⟩, classify_conflict hc⟩

lemma mem_conflicts_iff {c : ConflictEntry} :
    c ∈ (diffManifests localM remoteM base).conflicts
      ↔ ∃ q ∈ allPaths localM remoteM base,
          classify localM remoteM base q = DiffAction.conflictA c := by
  rw [diffManifests_conflicts]
  simp only [List.mem_filterMap, actConflict_eq_some]

end BucketMembership

/-- Number of the five diff buckets that mention a given path: an upload or
download entry counts through its path field, a delete through the stored
string, a conflict through its path field. -/
def pathBuckets (d : DiffResult) (p : String) : Nat :=
  (if d.toUpload.any (fun e => e.path == p) then 1 else 0) +
  (if d.toDownload.any (fun e => e.path == p) then 1 else 0) +
  (if d.toDeleteRemote.any (fun q => q == p) then 1 else 0) +
  (if d.toDeleteLocal.any (fun q => q == p) then 1 else 0) +
  (if d.conflicts.any (fun c => c.path == p) then 1 else 0)

section BucketFalse

variable {localM remoteM : SyncManifest} {base : Option SyncManifest} {p : String}

lemma toUpload_any_false (wfL : wellFormed localM)
    (h : ∀ e, classify localM remoteM base p ≠ DiffAction.upload e) :
    (diffManifests localM remoteM base).toUpload.any (fun e => e.path == p) = false :=
  Bool.eq_false_iff.2 (fun ha => by
    rcases (toUpload_any_iff wfL).1 ha with ⟨_, e, hc⟩
    exact h e hc)

lemma toDownload_any_false (wfR : wellFormed remoteM)
    (h : ∀ e, classify localM remoteM base p ≠ DiffAction.download e) :
    (diffManifests localM remoteM base).toDownload.any (fun e => e.path == p) = false :=
  Bool.eq_false_iff.2 (fun ha => by
    rcases (toDownload_any_iff wfR).1 ha with ⟨_, e, hc⟩
    exact h e hc)

lemma toDeleteRemote_any_false
    (h : classify localM remoteM base p ≠ DiffAction.deleteRemote p) :
    (diffManifests localM remoteM base).toDeleteRemote.any (fun q => q == p) = false :=
  Bool.eq_false_iff.2 (fun ha => h (toDeleteRemote_any_iff.1 ha).2)

lemma toDeleteLocal_any_false
    (h : classify localM remoteM base p ≠ DiffAction.deleteLocal p) :
    (diffManifests localM remoteM base).toDeleteLocal.any (fun q => q == p) = false :=
  Bool.eq_false_iff.2 (fun ha => h (toDeleteLocal_any_iff.1 ha).2)

lemma conflicts_any_false
    (h : ∀ c, classify localM remoteM base p ≠ DiffAction.conflictA c) :
    (diffManifests localM remoteM base).conflicts.any (fun c => c.path == p) = false :=
  Bool.eq_false_iff.2 (fun ha => by
    rcases conflicts_any_iff.1 ha with ⟨_, c, hc⟩
    exact h c hc)

end BucketFalse

/-- C3: for every local, remote and base manifest (including null base) whose
files Records satisfy the data-model invariant I1 (entry.path equals its key),
every path occurs in at most one of the five buckets toUpload, toDownload,
toDeleteRemote, toDeleteLocal, conflicts of diffManifests(local, remote, base). -/
theorem diff_path_in_at_most_one_bucket
    (localM remoteM : SyncManifest) (base : Option SyncManifest) (p : String)
    (wfL : wellFormed localM) (wfR : wellFormed remoteM) :
    pathBuckets (diffManifests localM remoteM base) p ≤ 1 := by
  unfold pathBuckets
  cases hc : classify localM remoteM base p
  case noop =>
    rw [toUpload_any_false wfL (by simp [hc]), toDownload_any_false wfR (by simp [hc]),
      toDeleteRemote_any_false (by simp [hc]), toDeleteLocal_any_false (by simp [hc]),
      conflicts_any_false (by simp [hc])]
    simp
  case upload e =>
    rw [toDownload_any_false wfR (by simp [hc]),
      toDeleteRemote_any_false (by simp [hc]), toDeleteLocal_any_false (by simp [hc]),
      conflicts_any_false (by simp [hc])]
    simp
    all_goals (split <;> simp)
  case download e =>
    rw [toUpload_any_false wfL (by simp [hc]),
      toDeleteRemote_any_false (by simp [hc]), toDeleteLocal_any_false (by simp [hc]),
      conflicts_any_false (by simp [hc])]
    simp
    all_goals (split <;> simp)
  case deleteRemote q =>
    rw [toUpload_any_false wfL (by simp [hc]), toDownload_any_false wfR (by simp [hc]),
      toDeleteLocal_any_false (by simp [hc]), conflicts_any_false (by simp [hc])]
    simp
    all_goals (split <;> simp)
  case deleteLocal q =>
    rw [toUpload_any_false wfL (by simp [hc]), toDownload_any_false wfR (by simp [hc]),
      toDeleteRemote_any_false (by simp [hc]), conflicts_any_false (by simp [hc])]
    simp
    all_goals (split <;> simp)
  case conflictA c =>
    rw [toUpload_any_false wfL (by simp [hc]), toDownload_any_false wfR (by simp [hc]),
      toDeleteRemote_any_false (by simp [hc]), toDeleteLocal_any_false (by simp [hc])]
    simp
    all_goals (split <;> simp)

/-- Witness for C3 at concrete manifests: local modifies a.md, remote
deletes b.md, base has both. -/
theorem diff_path_in_at_most_one_bucket_witness :
    pathBuckets
      (diffManifests
        { files := [("a.md", { path := "a.md", hash := "h2", mtime := 5, size := 1,
                               lastModifiedBy := "dev1" }),
                    ("b.md", { path := "b.md", hash := "h3", mtime := 5, size := 1,
                               lastModifiedBy := "dev1" })],
          lastUpdated := "t1", lastUpdatedBy := "dev1" }
        { files := [("a.md", { path := "a.md", hash := "h1", mtime := 1, size := 1,
                               lastModifiedBy := "dev2" })],
          lastUpdated := "t0", lastUpdatedBy := "dev2" }
        (some { files := [("a.md", { path := "a.md", hash := "h1", mtime := 1, size := 1,
                                     lastModifiedBy := "dev2" }),
                          ("b.md", { path := "b.md", hash := "h3", mtime := 2, size := 1,
                                     lastModifiedBy := "dev2" })],
                lastUpdated := "t0", lastUpdatedBy := "dev2" }))
      "a.md" ≤ 1 := by
  apply diff_path_in_at_most_one_bucket
  · decide
  · decide

section DeleteModifyClassify

variable {localM remoteM bm : SyncManifest} {p : String}

lemma classify_remote_modified_local_deleted {be re : FileEntry}
    (hb : getFile bm.files p = some be)
    (hl : getFile localM.files p = none)
    (hr : getFile remoteM.files p = some re)
    (hne : re.hash ≠ be.hash) :
    classify localM remoteM (some bm) p
      = DiffAction.conflictA { path := p, localE := be, remoteE := re, baseHash := some be.hash } := by
  simp [classify, hb, hl, hr, hne]

lemma classify_local_modified_remote_deleted {be le : FileEntry}
    (hb : getFile bm.files p = some be)
    (hl : getFile localM.files p = some le)
    (hr : getFile remoteM.files p = none)
    (hne : le.hash ≠ be.hash) :
    classify localM remoteM (some bm) p
      = DiffAction.conflictA { path := p, localE := le, remoteE := be, baseHash := some be.hash } := by
  simp [classify, hb, hl, hr, hne]

end DeleteModifyClassify

/-- C2: delete-versus-modify situations produce exactly the documented
conflict entry.  If base contains p, local lacks p, remote has p at a hash
different from base's hash, then diffManifests puts p into conflicts with
localE the (synthesized) base entry, remoteE the remote entry, and baseHash
base's hash; symmetrically, if p is present locally at a hash differing
from base and absent remotely, the conflict has remoteE the base entry; in
both cases p appears in none of the other four buckets. -/
theorem delete_modify_conflict
    (localM remoteM bm : SyncManifest)
    (wfL : wellFormed localM) (wfR : wellFormed remoteM) :
    (∀ (p : String) (be re : FileEntry),
       getFile bm.files p = some be →
       getFile localM.files p = none →
       getFile remoteM.files p = some re →
       re.hash ≠ be.hash →
       ({ path := p, localE := be, remoteE := re, baseHash := some be.hash } : ConflictEntry)
           ∈ (diffManifests localM remoteM (some bm)).conflicts
         ∧ (diffManifests localM remoteM (some bm)).toUpload.any (fun e => e.path == p) = false
         ∧ (diffManifests localM remoteM (some bm)).toDownload.any (fun e => e.path == p) = false
         ∧ (diffManifests localM remoteM (some bm)).toDeleteRemote.any (fun q => q == p) = false
         ∧ (diffManifests localM remoteM (some bm)).toDeleteLocal.any (fun q => q == p) = false)
    ∧ (∀ (p : String) (be le : FileEntry),
       getFile bm.files p = some be →
       getFile localM.files p = some le →
       getFile remoteM.files p = none →
       le.hash ≠ be.hash →
       ({ path := p, localE := le, remoteE := be, baseHash := some be.hash } : ConflictEntry)
           ∈ (diffManifests localM remoteM (some bm)).conflicts
         ∧ (diffManifests localM remoteM (some bm)).toUpload.any (fun e => e.path == p) = false
         ∧ (diffManifests localM remoteM (some bm)).toDownload.any (fun e => e.path == p) = false
         ∧ (diffManifests localM remoteM (some bm)).toDeleteRemote.any (fun q => q == p) = false
         ∧ (diffManifests localM remoteM (some bm)).toDeleteLocal.any (fun q => q == p) = false) := by
  constructor
  · intro p be re hb hl hr hne
    have hc : classify localM remoteM (some bm) p
        = DiffAction.conflictA
            { path := p, localE := be, remoteE := re, baseHash := some be.hash } :=
      classify_remote_modified_local_deleted hb hl hr hne
    refine ⟨mem_conflicts_iff.2 ⟨p, mem_allPaths_of_remoteKey hr, hc⟩, ?_, ?_, ?_, ?_⟩
    · exact toUpload_any_false wfL (by simp [hc])
    · exact toDownload_any_false wfR (by simp [hc])
    · exact toDeleteRemote_any_false (by simp [hc])
    · exact toDeleteLocal_any_false (by simp [hc])
  · intro p be le hb hl hr hne
    have hc : classify localM remoteM (some bm) p
        = DiffAction.conflictA
            { path := p, localE := le, remoteE := be, baseHash := some be.hash } :=
      classify_local_modified_remote_deleted hb hl hr hne
    refine ⟨mem_conflicts_iff.2 ⟨p, mem_allPaths_of_localKey hl, hc⟩, ?_, ?_, ?_, ?_⟩
    · exact toUpload_any_false wfL (by simp [hc])
    · exact toDownload_any_false wfR (by simp [hc])
    · exact toDeleteRemote_any_false (by simp [hc])
    · exact toDeleteLocal_any_false (by simp [hc])

/-- Witness for C2: base has a.md at h1; local deleted it; remote modified
it to h2; also the symmetric shape on b.md. -/
theorem delete_modify_conflict_witness :
    ({ path := "a.md",
       localE := { path := "a.md", hash := "h1", mtime := 1, size := 1, lastModifiedBy := "d0" },
       remoteE := { path := "a.md", hash := "h2", mtime := 9, size := 2, lastModifiedBy := "d2" },
       baseHash := some "h1" } : ConflictEntry)
      ∈ (diffManifests
          { files := [("b.md", { path := "b.md", hash := "h9", mtime := 7, size := 3,
                                 lastModifiedBy := "d1" })],
            lastUpdated := "t1", lastUpdatedBy := "d1" }
          { files := [("a.md", { path := "a.md", hash := "h2", mtime := 9, size := 2,
                                 lastModifiedBy := "d2" })],
            lastUpdated := "t2", lastUpdatedBy := "d2" }
          (some { files := [("a.md", { path := "a.md", hash := "h1", mtime := 1, size := 1,
                                       lastModifiedBy := "d0" }),
                            ("b.md", { path := "b.md", hash := "h8", mtime := 1, size := 3,
                                       lastModifiedBy := "d0" })],
                  lastUpdated := "t0", lastUpdatedBy := "d0" })).conflicts := by
  exact (delete_modify_conflict
    { files := [("b.md", { path := "b.md", hash := "h9", mtime := 7, size := 3,
                           lastModifiedBy := "d1" })],
      lastUpdated := "t1", lastUpdatedBy := "d1" }
    { files := [("a.md", { path := "a.md", hash := "h2", mtime := 9, size := 2,
                           lastModifiedBy := "d2" })],
      lastUpdated := "t2", lastUpdatedBy := "d2" }
    { files := [("a.md", { path := "a.md", hash := "h1", mtime := 1, size := 1,
                           lastModifiedBy := "d0" }),
                ("b.md", { path := "b.md", hash := "h8", mtime := 1, size := 3,
                           lastModifiedBy := "d0" })],
      lastUpdated := "t0", lastUpdatedBy := "d0" }
    (by decide) (by decide)).1 "a.md" _ _ (by decide) (by decide) (by decide)
    (by decide) |>.1

section RecordOps

/-- Key membership in an embedded JS Record (the `path in files` test). -/
def keyMem (files : List (String × FileEntry)) (p : String) : Bool :=
  files.any (fun kv => kv.1 == p)

/-- Folding a list of entries into a Record, keyed by each entry's path
(the for-loops writing files[entry.path] = entry). -/
def addEntries (fs : List (String × FileEntry)) (es : List FileEntry) :
    List (String × FileEntry) :=
  es.foldl (fun acc e => recordSet acc e.path e) fs

/-- Folding a list of keys deleted from a Record (the for-loops doing
delete files[path]). -/
def delKeys (fs : List (String × FileEntry)) (ks : List String) :
    List (String × FileEntry) :=
  ks.foldl recordDelete fs

lemma recordDelete_of_keyMem_false {fs : List (String × FileEntry)} {k : String}
    (h : keyMem fs k = false) : recordDelete fs k = fs := by
  unfold recordDelete
  apply List.filter_eq_self.2
  intro kv hkv
  unfold keyMem at h
  rw [List.any_eq_false] at h
  simpa using h kv hkv

lemma keyMem_recordSet {fs : List (String × FileEntry)} {k p : String} {v : FileEntry}
    (h : keyMem (recordSet fs k v) p = true) : p = k ∨ keyMem fs p = true := by
  unfold recordSet at h
  unfold keyMem at h ⊢
  split at h
  · rw [List.any_eq_true] at h
    rcases h with ⟨kv, hkv, hp⟩
    rcases List.mem_map.1 hkv with ⟨kv0, hkv0, rfl⟩
    split at hp
    · simp only [beq_iff_eq] at hp
      exact Or.inl hp.symm
    · exact Or.inr (List.any_eq_true.2 ⟨kv0, hkv0, hp⟩)
  · rw [List.any_append] at h
    rcases Bool.or_eq_true_iff.1 h with h | h
    · exact Or.inr h
    · simp only [List.any_cons, List.any_nil, Bool.or_false, beq_iff_eq] at h
      exact Or.inl h.symm

lemma keyMem_recordDelete {fs : List (String × FileEntry)} {k p : String}
    (h : keyMem (recordDelete fs k) p = true) : keyMem fs p = true := by
  unfold recordDelete at h
  unfold keyMem at h ⊢
  rw [List.any_eq_true] at h
  rcases h with ⟨kv, hkv, hp⟩
  exact List.any_eq_true.2 ⟨kv, List.mem_of_mem_filter hkv, hp⟩

lemma keyMem_addEntries {es : List FileEntry} :
    ∀ {fs : List (String × FileEntry)} {p : String},
      keyMem (addEntries fs es) p = true → p ∈ es.map (·.path) ∨ keyMem fs p = true := by
  induction es with
  | nil => intro fs p h; exact Or.inr h
  | cons e tl ih =>
    intro fs p h
    have := ih (show keyMem (addEntries (recordSet fs e.path e) tl) p = true from h)
    rcases this with hmem | hkm
    · exact Or.inl (List.mem_cons_of_mem _ hmem)
    · rcases keyMem_recordSet hkm with rfl | hkm
      · exact Or.inl (List.mem_cons_self _ _)
      · exact Or.inr hkm

lemma keyMem_delKeys {ks : List String} :
    ∀ {fs : List (String × FileEntry)} {p : String},
      keyMem (delKeys fs ks) p = true → keyMem fs p = true := by
  induction ks with
  | nil => intro fs p h; exact h
  | cons k tl ih =>
    intro fs p h
    exact keyMem_recordDelete (ih (show keyMem (delKeys (recordDelete fs k) tl) p = true from h))

lemma delKeys_of_keyMem_false {ks : List String} :
    ∀ {fs : List (String × FileEntry)},
      (∀ k ∈ ks, keyMem fs k = false) → delKeys fs ks = fs := by
  induction ks with
  | nil => intro fs _; rfl
  | cons k tl ih =>
    intro fs h
    have hk := h k (List.mem_cons_self _ _)
    show delKeys (recordDelete fs k) tl = fs
    rw [recordDelete_of_keyMem_false hk]
    exact ih (fun k' hk' => h k' (List.mem_cons_of_mem _ hk'))

lemma getFile_none_keyMem {fs : List (String × FileEntry)} {p : String}
    (h : getFile fs p = none) : keyMem fs p = false := by
  unfold getFile at h
  unfold keyMem
  rw [Option.map_eq_none'] at h
  rw [List.find?_eq_none] at h
  rw [List.any_eq_false]
  intro kv hkv
  simpa using h kv hkv

lemma recordDelete_recordSet_comm {fs : List (String × FileEntry)} {p k : String}
    {v : FileEntry} (hne : p ≠ k) :
    recordDelete (recordSet fs p v) k = recordSet (recordDelete fs k) p v := by
  unfold recordDelete recordSet
  by_cases hany : fs.any (fun kv => kv.1 == p)
  · rw [if_pos hany]
    have hany' : (fs.filter (fun kv => kv.1 != k)).any (fun kv => kv.1 == p) = true := by
      rw [List.any_eq_true] at hany ⊢
      rcases hany with ⟨kv, hkv, hp⟩
      refine ⟨kv, List.mem_filter.2 ⟨hkv, ?_⟩, hp⟩
      simp only [beq_iff_eq] at hp
      simp [bne_iff_ne, hp, hne]
    rw [if_pos hany']
    rw [List.filter_map]
    congr 1
    apply List.filter_congr
    intro kv _
    by_cases hk : kv.1 == p
    · simp only [Function.comp_apply, if_pos hk]
      simp only [beq_iff_eq] at hk
      simp [bne_iff_ne, hk, hne]
    · simp only [Function.comp_apply, if_neg hk]
  · rw [if_neg hany]
    have hany0 : fs.any (fun kv => kv.1 == p) = false := Bool.eq_false_iff.2 hany
    have hany' : (fs.filter (fun kv => kv.1 != k)).any (fun kv => kv.1 == p) = false := by
      rw [List.any_eq_false] at hany0 ⊢
      intro kv hkv
      exact hany0 kv (List.mem_of_mem_filter hkv)
    rw [if_neg (by simp [hany'])]
    rw [List.filter_append]
    simp [bne_iff_ne, hne]

lemma delKeys_recordSet_comm {ks : List String} :
    ∀ {fs : List (String × FileEntry)} {p : String} {v : FileEntry}, p ∉ ks →
      delKeys (recordSet fs p v) ks = recordSet (delKeys fs ks) p v := by
  induction ks with
  | nil => intro fs p v _; rfl
  | cons k tl ih =>
    intro fs p v hp
    have hpk : p ≠ k := fun h => hp (h ▸ List.mem_cons_self _ _)
    show delKeys (recordDelete (recordSet fs p v) k) tl = _
    rw [recordDelete_recordSet_comm hpk]
    exact ih (fun h => hp (List.mem_cons_of_mem _ h))

lemma delKeys_addEntries_comm {es : List FileEntry} :
    ∀ {fs : List (String × FileEntry)} {ks : List String},
      (∀ e ∈ es, e.path ∉ ks) →
      delKeys (addEntries fs es) ks = addEntries (delKeys fs ks) es := by
  induction es with
  | nil => intro fs ks _; rfl
  | cons e tl ih =>
    intro fs ks h
    show delKeys (addEntries (recordSet fs e.path e) tl) ks = _
    rw [ih (fun e' he' => h e' (List.mem_cons_of_mem _ he'))]
    rw [delKeys_recordSet_comm (h e (List.mem_cons_self _ _))]
    rfl

end RecordOps

section PlainMembership

variable {localM remoteM : SyncManifest} {base : Option SyncManifest}

lemma mem_toUpload_iff {e : FileEntry} :
    e ∈ (diffManifests localM remoteM base).toUpload
      ↔ ∃ q ∈ allPaths localM remoteM base,
          classify localM remoteM base q = DiffAction.upload e := by
  rw [diffManifests_toUpload]
  simp only [List.mem_filterMap, actUpload_eq_some]

lemma mem_toDownload_iff {e : FileEntry} :
    e ∈ (diffManifests localM remoteM base).toDownload
      ↔ ∃ q ∈ allPaths localM remoteM base,
          classify localM remoteM base q = DiffAction.download e := by
  rw [diffManifests_toDownload]
  simp only [List.mem_filterMap, actDownload_eq_some]

lemma mem_toDeleteRemote_iff {p : String} :
    p ∈ (diffManifests localM remoteM base).toDeleteRemote
      ↔ p ∈ allPaths localM remoteM base ∧
          classify localM remoteM base p = DiffAction.deleteRemote p := by
  rw [diffManifests_toDeleteRemote]
  simp only [List.mem_filterMap, actDeleteRemote_eq_some]
  constructor
  · rintro ⟨q, hq, hc⟩
    have := classify_deleteRemote hc
    subst this
    exact ⟨hq, hc⟩
  · rintro ⟨hp, hc⟩
    exact ⟨p, hp, hc⟩

lemma mem_toDeleteLocal_iff {p : String} :
    p ∈ (diffManifests localM remoteM base).toDeleteLocal
      ↔ p ∈ allPaths localM remoteM base ∧
          classify localM remoteM base p = DiffAction.deleteLocal p := by
  rw [diffManifests_toDeleteLocal]
  simp only [List.mem_filterMap, actDeleteLocal_eq_some]
  constructor
  · rintro ⟨q, hq, hc⟩
    have := (classify_deleteLocal hc).1
    subst this
    exact ⟨hq, hc⟩
  · rintro ⟨hp, hc⟩
    exact ⟨p, hp, hc⟩

end PlainMembership

/-- Outcome kinds of a resolved conflict in the sync engine (merger.ts,
ResolvedConflict.action). -/
inductive ResolvedAction where
  | uploaded : ResolvedAction
  | downloaded : ResolvedAction
  | deleted : ResolvedAction
deriving DecidableEq, Repr

/-- ResolvedConflict from merger.ts. -/
structure ResolvedConflict where
  path : String
  action : ResolvedAction
  entry : FileEntry
deriving DecidableEq, Repr

/-- applyDiffToManifest from the shared manifest module.  The Date call for
lastUpdated is passed in as the now parameter. -/
def applyDiffToManifest (base : SyncManifest) (diff : DiffResult)
    (deviceId : String) (now : String) : SyncManifest :=
  let files0 := base.files
  let files1 := addEntries files0 diff.toUpload
  let files2 := addEntries files1 diff.toDownload
  let files3 := delKeys files2 diff.toDeleteRemote
  let files4 := delKeys files3 diff.toDeleteLocal
  { files := files4, lastUpdated := now, lastUpdatedBy := deviceId }

/-- The files Record built inline by step 10 of SyncEngine.executeSyncCycle
(merger.ts): spread of remote.files, then uploads, then resolved conflicts,
then remote deletions, then downloads.  Note no removal of toDeleteLocal. -/
def executeSyncCycleStep10Files (remoteFiles : List (String × FileEntry))
    (diff : DiffResult) (resolved : List ResolvedConflict) :
    List (String × FileEntry) :=
  let files0 := remoteFiles
  let files1 := addEntries files0 diff.toUpload
  let files2 := resolved.foldl
    (fun acc rc =>
      match rc.action with
      | ResolvedAction.deleted => recordDelete acc rc.path
      | _ => recordSet acc rc.path rc.entry)
    files1
  let files3 := delKeys files2 diff.toDeleteRemote
  let files4 := addEntries files3 diff.toDownload
  files4

/-- C10 (implicit refinement): when the conflict list is empty, the files
Record the engine builds inline in step 10 (uploads and downloads overlaid
on remote.files, minus toDeleteRemote) is exactly the files Record of the
shared helper applyDiffToManifest(remote, diff, deviceId), because the
toDeleteLocal paths the engine never removes are absent from remote.files
for every diff produced by diffManifests. -/
theorem engine_step10_matches_applyDiffToManifest
    (localM remoteM : SyncManifest) (base : Option SyncManifest)
    (deviceId now : String) (diff : DiffResult)
    (wfL : wellFormed localM) (wfR : wellFormed remoteM)
    (hdiff : diff = diffManifests localM remoteM base)
    (hconf : diff.conflicts = []) :
    executeSyncCycleStep10Files remoteM.files diff []
      = (applyDiffToManifest remoteM diff deviceId now).files := by
  subst hdiff
  have hDnRD : ∀ e ∈ (diffManifests localM remoteM base).toDownload,
      e.path ∉ (diffManifests localM remoteM base).toDeleteRemote := by
    intro e he hmem
    rcases mem_toDownload_iff.1 he with ⟨q, _, hc⟩
    have hq : e.path = q := getFile_path_eq wfR (classify_download hc)
    rw [hq] at hmem
    have hdr := (mem_toDeleteRemote_iff.1 hmem).2
    rw [hdr] at hc
    cases hc
  have h1 : delKeys (addEntries
        (addEntries remoteM.files (diffManifests localM remoteM base).toUpload)
        (diffManifests localM remoteM base).toDownload)
        (diffManifests localM remoteM base).toDeleteRemote
      = addEntries (delKeys
          (addEntries remoteM.files (diffManifests localM remoteM base).toUpload)
          (diffManifests localM remoteM base).toDeleteRemote)
          (diffManifests localM remoteM base).toDownload :=
    delKeys_addEntries_comm hDnRD
  have h2 : delKeys (addEntries (delKeys
        (addEntries remoteM.files (diffManifests localM remoteM base).toUpload)
        (diffManifests localM remoteM base).toDeleteRemote)
        (diffManifests localM remoteM base).toDownload)
        (diffManifests localM remoteM base).toDeleteLocal
      = addEntries (delKeys
          (addEntries remoteM.files (diffManifests localM remoteM base).toUpload)
          (diffManifests localM remoteM base).toDeleteRemote)
          (diffManifests localM remoteM base).toDownload := by
    apply delKeys_of_keyMem_false
    intro k hk
    have hdl := (mem_toDeleteLocal_iff.1 hk).2
    apply Bool.eq_false_iff.2
    intro hkm
    rcases keyMem_addEntries hkm with hmem | hkm2
    · rcases List.mem_map.1 hmem with ⟨e, he, hep⟩
      rcases mem_toDownload_iff.1 he with ⟨q, _, hc⟩
      have hq : e.path = q := getFile_path_eq wfR (classify_download hc)
      rw [← hep, hq] at hdl
      rw [hdl] at hc
      cases hc
    · have hkm3 := keyMem_delKeys hkm2
      rcases keyMem_addEntries hkm3 with hmem | hkm4
      · rcases List.mem_map.1 hmem with ⟨e, he, hep⟩
        rcases mem_toUpload_iff.1 he with ⟨q, _, hc⟩
        have hq : e.path = q := getFile_path_eq wfL (classify_upload hc)
        rw [← hep, hq] at hdl
        rw [hdl] at hc
        cases hc
      · have hnone := (classify_deleteLocal hdl).2
        rw [getFile_none_keyMem hnone] at hkm4
        cases hkm4
  show addEntries (delKeys
        (addEntries remoteM.files (diffManifests localM remoteM base).toUpload)
        (diffManifests localM remoteM base).toDeleteRemote)
        (diffManifests localM remoteM base).toDownload
      = delKeys (delKeys (addEntries
          (addEntries remoteM.files (diffManifests localM remoteM base).toUpload)
          (diffManifests localM remoteM base).toDownload)
          (diffManifests localM remoteM base).toDeleteRemote)
          (diffManifests localM remoteM base).toDeleteLocal
  rw [h1, h2]

/-- Witness for C10 at a concrete scenario: remote has a.md and c.md; local
adds b.md (new, uploaded) and deleted c.md unchanged from base (so it lands
in toDeleteRemote). -/
theorem engine_step10_matches_applyDiffToManifest_witness :
    executeSyncCycleStep10Files
        (SyncManifest.files
          { files := [("a.md", { path := "a.md", hash := "h1", mtime := 1, size := 1,
                                 lastModifiedBy := "d2" }),
                      ("c.md", { path := "c.md", hash := "h3", mtime := 1, size := 1,
                                 lastModifiedBy := "d2" })],
            lastUpdated := "t0", lastUpdatedBy := "d2" })
        (diffManifests
          { files := [("a.md", { path := "a.md", hash := "h1", mtime := 1, size := 1,
                                 lastModifiedBy := "d2" }),
                      ("b.md", { path := "b.md", hash := "h2", mtime := 2, size := 1,
                                 lastModifiedBy := "d1" })],
            lastUpdated := "t1", lastUpdatedBy := "d1" }
          { files := [("a.md", { path := "a.md", hash := "h1", mtime := 1, size := 1,
                                 lastModifiedBy := "d2" }),
                      ("c.md", { path := "c.md", hash := "h3", mtime := 1, size := 1,
                                 lastModifiedBy := "d2" })],
            lastUpdated := "t0", lastUpdatedBy := "d2" }
          (some { files := [("a.md", { path := "a.md", hash := "h1", mtime := 1, size := 1,
                                       lastModifiedBy := "d2" }),
                            ("c.md", { path := "c.md", hash := "h3", mtime := 1, size := 1,
                                       lastModifiedBy := "d2" })],
                  lastUpdated := "t0", lastUpdatedBy := "d2" }))
        []
      = (applyDiffToManifest
          { files := [("a.md", { path := "a.md", hash := "h1", mtime := 1, size := 1,
                                 lastModifiedBy := "d2" }),
                      ("c.md", { path := "c.md", hash := "h3", mtime := 1, size := 1,
                                 lastModifiedBy := "d2" })],
            lastUpdated := "t0", lastUpdatedBy := "d2" }
          (diffManifests
            { files := [("a.md", { path := "a.md", hash := "h1", mtime := 1, size := 1,
                                   lastModifiedBy := "d2" }),
                        ("b.md", { path := "b.md", hash := "h2", mtime := 2, size := 1,
                                   lastModifiedBy := "d1" })],
              lastUpdated := "t1", lastUpdatedBy := "d1" }
            { files := [("a.md", { path := "a.md", hash := "h1", mtime := 1, size := 1,
                                   lastModifiedBy := "d2" }),
                        ("c.md", { path := "c.md", hash := "h3", mtime := 1, size := 1,
                                   lastModifiedBy := "d2" })],
              lastUpdated := "t0", lastUpdatedBy := "d2" }
            (some { files := [("a.md", { path := "a.md", hash := "h1", mtime := 1, size := 1,
                                         lastModifiedBy := "d2" }),
                              ("c.md", { path := "c.md", hash := "h3", mtime := 1, size := 1,
                                         lastModifiedBy := "d2" })],
                    lastUpdated := "t0", lastUpdatedBy := "d2" }))
          "d1" "t2").files :=
  engine_step10_matches_applyDiffToManifest
    { files := [("a.md", { path := "a.md", hash := "h1", mtime := 1, size := 1,
                           lastModifiedBy := "d2" }),
                ("b.md", { path := "b.md", hash := "h2", mtime := 2, size := 1,
                           lastModifiedBy := "d1" })],
      lastUpdated := "t1", lastUpdatedBy := "d1" }
    { files := [("a.md", { path := "a.md", hash := "h1", mtime := 1, size := 1,
                           lastModifiedBy := "d2" }),
                ("c.md", { path := "c.md", hash := "h3", mtime := 1, size := 1,
                           lastModifiedBy := "d2" })],
      lastUpdated := "t0", lastUpdatedBy := "d2" }
    (some { files := [("a.md", { path := "a.md", hash := "h1", mtime := 1, size := 1,
                                 lastModifiedBy := "d2" }),
                      ("c.md", { path := "c.md", hash := "h3", mtime := 1, size := 1,
                                 lastModifiedBy := "d2" })],
            lastUpdated := "t0", lastUpdatedBy := "d2" })
    "d1" "t2" _ (by decide) (by decide) rfl (by decide)

/-- Validation performed by the POST /files/upload-url handler
(worker routes/files.ts): the only check before generating a presigned URL
is the JS falsiness test on path (absent field or empty string), answered
with 400; every other path reaches generatePresignedUrl and returns 200. -/
def uploadUrlStatus (path : Option String) : Nat :=
  match path with
  | none => 400
  | some p => if p = "" then 400 else 200

/-- Validation performed by the POST /files/download-url handler
(worker routes/files.ts): identical falsiness check on path. -/
def downloadUrlStatus (path : Option String) : Nat :=
  match path with
  | none => 400
  | some p => if p = "" then 400 else 200

/-- Validation performed by the POST /files/delete handler
(worker routes/files.ts): the only check is paths being a non-empty array;
it never inspects individual paths before calling BUCKET.delete. -/
def deleteFilesStatus (paths : Option (List String)) : Nat :=
  match paths with
  | none => 400
  | some ps => if ps.length = 0 then 400 else 200

/-- C1 evaluated at the failing inputs: the file routes accept traversal
paths, absolute paths, the reserved internal prefix, and bulk arrays
containing an invalid path, returning 200 where the claim (and the worker's
own tests) require 400. -/
theorem fileRoutes_accept_invalid_paths :
    uploadUrlStatus (some "../etc/passwd") = 200
  ∧ uploadUrlStatus (some "/etc/passwd") = 200
  ∧ uploadUrlStatus (some "\\windows\\system32") = 200
  ∧ uploadUrlStatus (some ".obsidian-r2-sync/manifest.json") = 200
  ∧ downloadUrlStatus (some "../etc/passwd") = 200
  ∧ deleteFilesStatus (some ["valid.md", "../invalid.md"]) = 200 := by
  decide

/-- All quotes are removed from the If-Match header value before the
conditional put (manifest route, ifMatch.replace on every quote). -/
def stripQuotes (s : String) : String :=
  String.mk (s.data.filter (fun c => c != '"'))

/-- Spec-side reading of the conditional-write contract, for comparison:
only the quotes surrounding the If-Match value are stripped. -/
def stripSurroundingQuotes (s : String) : String :=
  match s.data with
  | '"' :: rest =>
    if rest ≠ [] ∧ rest.getLast? = some '"' then String.mk rest.dropLast else s
  | _ => s

/-- Outcome of a PUT /manifest request: resulting stored object (body and
etag), HTTP status, and the ETag carried by a 200 response. -/
structure PutOutcome where
  state : Option (String × String)
  status : Nat
  etagResponse : Option String
deriving DecidableEq, Repr

/-- R2's conditional put as exercised by the manifest route (the in-repo
mock documents it: when onlyIf.etagMatches is present the put returns null
unless an object exists whose etag equals the given value; otherwise the
body is stored under a fresh etag). -/
def r2PutManifest (state : Option (String × String)) (body : String)
    (etagMatches : Option String) (newEtag : String) :
    Option (String × String) :=
  match etagMatches with
  | some m =>
    (match state with
     | some (_, etag) => if etag = m then some (body, newEtag) else none
     | none => none)
  | none => some (body, newEtag)

/-- PUT /manifest handler (worker routes/manifest.ts): 428 when an object
exists and If-Match is JS-falsy; otherwise conditional put with all quotes
stripped from If-Match, answering 412 when R2 reports the condition failed
and 200 with the fresh ETag on success. -/
def putManifestRoute (state : Option (String × String)) (ifMatch : Option String)
    (body : String) (newEtag : String) : PutOutcome :=
  let ifMatchTruthy : Bool :=
    match ifMatch with
    | some s => s != ""
    | none => false
  if state.isSome && !ifMatchTruthy then
    { state := state, status := 428, etagResponse := none }
  else
    let onlyIf := if ifMatchTruthy then ifMatch.map stripQuotes else none
    match r2PutManifest state body onlyIf newEtag with
    | none => { state := state, status := 412, etagResponse := none }
    | some st => { state := some st, status := 200, etagResponse := some newEtag }

/-- Counterexample to C4 as stated: with stored ETag ab and If-Match value
a"b, stripping only surrounding quotes leaves a"b, which differs from ab,
so the claim requires 412 and no write; the handler strips every quote,
matches, and commits with 200. -/
theorem manifest_put_all_quotes_counterexample :
    (putManifestRoute (some ("m1", "ab")) (some "a\"b") "m2" "e2").status = 200
  ∧ stripSurroundingQuotes "a\"b" = "a\"b"
  ∧ stripSurroundingQuotes "a\"b" ≠ "ab"
  ∧ (putManifestRoute (some ("m1", "ab")) (some "a\"b") "m2" "e2").state
      = some ("m2", "e2") := by
  decide

/-- C4 amended: as the claim, except that every quote character (not only
the surrounding pair) is removed from If-Match before comparing with the
stored ETag. -/
theorem manifest_put_conditional_semantics
    (state : Option (String × String)) (body newEtag : String) :
    (∀ b e, state = some (b, e) →
      putManifestRoute state none body newEtag
        = { state := state, status := 428, etagResponse := none })
  ∧ (∀ s b e, state = some (b, e) → s ≠ "" → stripQuotes s ≠ e →
      putManifestRoute state (some s) body newEtag
        = { state := state, status := 412, etagResponse := none })
  ∧ (∀ s b e, state = some (b, e) → s ≠ "" → stripQuotes s = e →
      putManifestRoute state (some s) body newEtag
        = { state := some (body, newEtag), status := 200, etagResponse := some newEtag })
  ∧ (state = none →
      putManifestRoute state none body newEtag
        = { state := some (body, newEtag), status := 200, etagResponse := some newEtag }) := by
  refine ⟨?_, ?_, ?_, ?_⟩
  · rintro b e rfl
    simp [putManifestRoute]
  · rintro s b e rfl hs hne
    simp [putManifestRoute, r2PutManifest, hs, Ne.symm hne, bne_iff_ne]
  · rintro s b e rfl hs heq
    simp [putManifestRoute, r2PutManifest, hs, heq, bne_iff_ne]
  · rintro rfl
    simp [putManifestRoute, r2PutManifest]

/-- Witness for C4 (amended): a first write without If-Match, a matching
quoted If-Match, a mismatching If-Match, and a missing If-Match on an
existing object, all at concrete values. -/
theorem manifest_put_conditional_semantics_witness :
    putManifestRoute none none "m1" "e1"
      = { state := some ("m1", "e1"), status := 200, etagResponse := some "e1" }
  ∧ putManifestRoute (some ("m1", "e1")) (some "\"e1\"") "m2" "e2"
      = { state := some ("m2", "e2"), status := 200, etagResponse := some "e2" }
  ∧ putManifestRoute (some ("m1", "e1")) (some "\"e0\"") "m2" "e2"
      = { state := some ("m1", "e1"), status := 412, etagResponse := none }
  ∧ putManifestRoute (some ("m1", "e1")) none "m2" "e2"
      = { state := some ("m1", "e1"), status := 428, etagResponse := none } := by
  refine ⟨?_, ?_, ?_, ?_⟩
  · exact (manifest_put_conditional_semantics none "m1" "e1").2.2.2 rfl
  · exact (manifest_put_conditional_semantics (some ("m1", "e1")) "m2" "e2").2.2.1
      "\"e1\"" "m1" "e1" rfl (by decide) (by decide)
  · exact (manifest_put_conditional_semantics (some ("m1", "e1")) "m2" "e2").2.1
      "\"e0\"" "m1" "e1" rfl (by decide) (by decide)
  · exact (manifest_put_conditional_semantics (some ("m1", "e1")) "m2" "e2").1
      "m1" "e1" rfl

/-- Outcome of one executeSyncCycle attempt: normal return, a thrown
ManifestConflictError (HTTP 412 on the manifest commit), or any other
thrown error. -/
inductive CycleOutcome where
  | success : CycleOutcome
  | conflict : CycleOutcome
  | failure : CycleOutcome
deriving DecidableEq, Repr

/-- Result of SyncEngine.sync: resolved normally, failed by propagating the
ManifestConflictError, or failed by propagating another error. -/
inductive SyncRunResult where
  | completed : SyncRunResult
  | conflictError : SyncRunResult
  | otherError : SyncRunResult
deriving DecidableEq, Repr

/-- The while-loop of SyncEngine.sync (merger.ts): outcome n is what the
n-th executeSyncCycle attempt does (n = current retries counter).  The
first argument is fuel; MAX_RETRIES is enough fuel because retries strictly
increases each iteration, so the fuel-exhaustion value (like the loop
falling through, which resolves the promise) is unreachable from sync. -/
def syncLoop (outcome : Nat → CycleOutcome) : Nat → Nat → SyncRunResult
  | 0, _ => SyncRunResult.completed
  | fuel + 1, retries =>
    if retries < MAX_RETRIES then
      match outcome retries with
      | CycleOutcome.success => SyncRunResult.completed
      | CycleOutcome.failure => SyncRunResult.otherError
      | CycleOutcome.conflict =>
        if retries < MAX_RETRIES - 1 then syncLoop outcome fuel (retries + 1)
        else SyncRunResult.conflictError
    else SyncRunResult.completed

/-- SyncEngine.sync (merger.ts): run the retry loop from retries = 0. -/
def sync (outcome : Nat → CycleOutcome) : SyncRunResult :=
  syncLoop outcome MAX_RETRIES 0

/-- Attempt script with three conflicts followed by a success. -/
def threeConflictsThenSuccess : Nat → CycleOutcome :=
  fun n => if n < 3 then CycleOutcome.conflict else CycleOutcome.success

/-- Counterexample to C5 as stated: were the engine to restart up to
MAX_MANIFEST_RETRIES = 3 times, a run whose first three attempts hit 412
and whose fourth succeeds would complete; the code retries only while
retries < MAX_RETRIES - 1, so it gives up after the third conflicting
attempt (two restarts) and propagates the conflict error. -/
theorem sync_retries_counterexample :
    sync threeConflictsThenSuccess = SyncRunResult.conflictError
  ∧ threeConflictsThenSuccess 3 = CycleOutcome.success
  ∧ SyncRunResult.conflictError ≠ SyncRunResult.completed := by
  decide

/-- C5 amended: a ManifestConflictError restarts the cycle at most
MAX_RETRIES - 1 = 2 times (three attempts in total); three conflicting
attempts propagate the conflict error, and any non-conflict error is
propagated immediately without a retry. -/
theorem sync_manifest_retry_semantics (outcome : Nat → CycleOutcome) :
    (outcome 0 = CycleOutcome.success → sync outcome = SyncRunResult.completed)
  ∧ (outcome 0 = CycleOutcome.conflict → outcome 1 = CycleOutcome.success →
      sync outcome = SyncRunResult.completed)
  ∧ (outcome 0 = CycleOutcome.conflict → outcome 1 = CycleOutcome.conflict →
      outcome 2 = CycleOutcome.success → sync outcome = SyncRunResult.completed)
  ∧ (outcome 0 = CycleOutcome.conflict → outcome 1 = CycleOutcome.conflict →
      outcome 2 = CycleOutcome.conflict → sync outcome = SyncRunResult.conflictError)
  ∧ (outcome 0 = CycleOutcome.failure → sync outcome = SyncRunResult.otherError)
  ∧ (outcome 0 = CycleOutcome.conflict → outcome 1 = CycleOutcome.failure →
      sync outcome = SyncRunResult.otherError)
  ∧ (outcome 0 = CycleOutcome.conflict → outcome 1 = CycleOutcome.conflict →
      outcome 2 = CycleOutcome.failure → sync outcome = SyncRunResult.otherError) := by
  refine ⟨?_, ?_, ?_, ?_, ?_, ?_, ?_⟩ <;>
    (intros; simp_all [sync, syncLoop, MAX_RETRIES])

/-- Witness for C5 (amended) at concrete attempt scripts. -/
theorem sync_manifest_retry_semantics_witness :
    sync (fun _ => CycleOutcome.success) = SyncRunResult.completed
  ∧ sync (fun _ => CycleOutcome.conflict) = SyncRunResult.conflictError
  ∧ sync (fun n => if n = 0 then CycleOutcome.conflict else CycleOutcome.failure)
      = SyncRunResult.otherError :=
  ⟨(sync_manifest_retry_semantics (fun _ => CycleOutcome.success)).1 rfl,
   (sync_manifest_retry_semantics (fun _ => CycleOutcome.conflict)).2.2.2.1 rfl rfl rfl,
   (sync_manifest_retry_semantics
     (fun n => if n = 0 then CycleOutcome.conflict else CycleOutcome.failure)).2.2.2.2.2.1
     (by decide) (by decide)⟩

/-- MergeResult from merger.ts. -/
structure MergeResult where
  clean : Bool
  content : String
  hasConflictMarkers : Bool
deriving DecidableEq, Repr

/-- threeWayMerge from merger.ts, parametric in the diff-match-patch
library: patch_make computes the patches from base to remote, patch_apply
applies them to the local text and reports per-patch success flags. -/
def threeWayMerge {Patches : Type} (patch_make : String → String → Patches)
    (patch_apply : Patches → String → String × List Bool)
    (base localText remoteText : String) : MergeResult :=
  let patches := patch_make base remoteText
  let applied := patch_apply patches localText
  let allApplied := applied.2.all (fun r => r)
  if allApplied then
    { clean := true, content := applied.1, hasConflictMarkers := false }
  else
    { clean := false,
      content := "<<<<<<< LOCAL\n" ++ localText ++ "\n=======\n" ++ remoteText
        ++ "\n>>>>>>> REMOTE\n",
      hasConflictMarkers := true }

/-- C9: threeWayMerge applies the base-to-remote patches to the local text;
when every patch applies cleanly it returns the patched text marked clean,
and otherwise (not an error) it returns a conflict-marked document
bracketing the unresolved content between the LOCAL/REMOTE markers. -/
theorem threeWayMerge_spec {Patches : Type}
    (patch_make : String → String → Patches)
    (patch_apply : Patches → String → String × List Bool)
    (base localText remoteText : String) :
    ((patch_apply (patch_make base remoteText) localText).2.all (fun r => r) = true →
      threeWayMerge patch_make patch_apply base localText remoteText
        = { clean := true,
            content := (patch_apply (patch_make base remoteText) localText).1,
            hasConflictMarkers := false })
  ∧ ((patch_apply (patch_make base remoteText) localText).2.all (fun r => r) = false →
      threeWayMerge patch_make patch_apply base localText remoteText
        = { clean := false,
            content := "<<<<<<< LOCAL\n" ++ localText ++ "\n=======\n" ++ remoteText
              ++ "\n>>>>>>> REMOTE\n",
            hasConflictMarkers := true }) := by
  constructor <;> intro h <;> simp [threeWayMerge, h]

/-- Witness for C9 with a cleanly-applying patch oracle and with a failing
one, at concrete texts. -/
theorem threeWayMerge_spec_witness :
    threeWayMerge (fun _ _ => ()) (fun _ s => (s ++ "R", [true])) "b" "l" "r"
      = { clean := true, content := "lR", hasConflictMarkers := false }
  ∧ threeWayMerge (fun _ _ => ()) (fun _ s => (s, [false])) "b" "l" "r"
      = { clean := false,
          content := "<<<<<<< LOCAL\nl\n=======\nr\n>>>>>>> REMOTE\n",
          hasConflictMarkers := true } :=
  ⟨(threeWayMerge_spec (fun _ _ => ()) (fun _ s => (s ++ "R", [true])) "b" "l" "r").1 rfl,
   (threeWayMerge_spec (fun _ _ => ()) (fun _ s => (s, [false])) "b" "l" "r").2 rfl⟩

/-- Splitting an auth token at its first colon (token.indexOf and the two
slices in middleware/auth.ts); none when there is no colon. -/
def splitFirstColon : List Char → Option (List Char × List Char)
  | [] => none
  | c :: rest =>
    if c = ':' then some ([], rest)
    else (splitFirstColon rest).map (fun dh => (c :: dh.1, dh.2))

/-- Result of the auth middleware: attach the parsed deviceId to the
request context, or answer 401 with the given error message. -/
inductive AuthResult where
  | ok : List Char → AuthResult
  | unauthorized : String → AuthResult
deriving DecidableEq, Repr

/-- authMiddleware from worker middleware/auth.ts, with HMAC-SHA-256 as an
abstract oracle hmacHex from deviceId to its lowercase-hex tag under the
server's secret.  Strings are embedded as character lists.  The
constant-time XOR loop of the source accepts exactly when the two
same-length strings are equal, which is the final equality test here. -/
def authCheck (hmacHex : List Char → List Char)
    (authHeader : Option (List Char)) : AuthResult :=
  match authHeader with
  | none => AuthResult.unauthorized "Missing or invalid Authorization header"
  | some h =>
    if h.take 7 = "Bearer ".toList then
      let token := h.drop 7
      match splitFirstColon token with
      | none => AuthResult.unauthorized "Invalid token format"
      | some (deviceId, providedHmac) =>
        let expectedHmac := hmacHex deviceId
        if expectedHmac.length ≠ providedHmac.length then
          AuthResult.unauthorized "Invalid token"
        else if expectedHmac ≠ providedHmac then
          AuthResult.unauthorized "Invalid token"
        else
          AuthResult.ok deviceId
    else AuthResult.unauthorized "Missing or invalid Authorization header"

lemma splitFirstColon_some {t d h : List Char}
    (he : splitFirstColon t = some (d, h)) : t = d ++ ':' :: h ∧ ':' ∉ d := by
  induction t generalizing d with
  | nil => simp [splitFirstColon] at he
  | cons c rest ih =>
    by_cases hc : c = ':'
    · subst hc
      simp [splitFirstColon] at he
      rcases he with ⟨rfl, rfl⟩
      simp
    · simp only [splitFirstColon, if_neg hc, Option.map_eq_some'] at he
      rcases he with ⟨⟨d0, h0⟩, hsp, heq⟩
      cases heq
      rcases ih hsp with ⟨rfl, hnotin⟩
      refine ⟨rfl, ?_⟩
      simp only [List.mem_cons]
      rintro (rfl | hmem)
      · exact hc rfl
      · exact hnotin hmem

lemma splitFirstColon_append {d h : List Char} (hd : ':' ∉ d) :
    splitFirstColon (d ++ ':' :: h) = some (d, h) := by
  induction d with
  | nil => simp [splitFirstColon]
  | cons c rest ih =>
    have hc : c ≠ ':' := fun hcc => hd (hcc ▸ List.mem_cons_self _ _)
    have hrest : ':' ∉ rest := fun hm => hd (List.mem_cons_of_mem _ hm)
    simp [splitFirstColon, hc, ih hrest]

lemma splitFirstColon_none {t : List Char}
    (hn : ':' ∉ t) : splitFirstColon t = none := by
  induction t with
  | nil => rfl
  | cons c rest ih =>
    have hc : c ≠ ':' := fun hcc => hn (hcc ▸ List.mem_cons_self _ _)
    have hrest : ':' ∉ rest := fun hm => hn (List.mem_cons_of_mem _ hm)
    simp [splitFirstColon, hc, ih hrest]

/-- C7: the auth middleware accepts exactly the Authorization headers of the
form Bearer deviceId:hmacHex where hmacHex is the oracle's tag for deviceId
(the documented HMAC construction; deviceId is the part before the first
colon, hence colon-free), attaching that deviceId on success; a token
without a colon is answered 401 invalid token format, and a provided HMAC
differing from the expected one (in length or content) is answered 401. -/
theorem auth_middleware_spec (hmacHex : List Char → List Char) :
    (∀ (header d : List Char),
      authCheck hmacHex (some header) = AuthResult.ok d
        ↔ (':' ∉ d ∧ header = "Bearer ".toList ++ d ++ ':' :: hmacHex d))
  ∧ (∀ t : List Char, ':' ∉ t →
      authCheck hmacHex (some ("Bearer ".toList ++ t))
        = AuthResult.unauthorized "Invalid token format")
  ∧ (∀ d h : List Char, ':' ∉ d → h ≠ hmacHex d →
      authCheck hmacHex (some ("Bearer ".toList ++ d ++ ':' :: h))
        = AuthResult.unauthorized "Invalid token")
  ∧ (authCheck hmacHex none
      = AuthResult.unauthorized "Missing or invalid Authorization header") := by
  have hlen : ("Bearer ".toList).length = 7 := by decide
  have htake7 : ∀ t : List Char, ("Bearer ".toList ++ t).take 7 = "Bearer ".toList := by
    intro t
    rw [List.take_append_of_le_length (by simp [hlen])]
    decide
  have hdrop7 : ∀ t : List Char, ("Bearer ".toList ++ t).drop 7 = t := by
    intro t
    rw [List.drop_append_of_le_length (by simp [hlen])]
    rw [show ("Bearer ".toList).drop 7 = [] from by decide]
    simp
  refine ⟨?_, ?_, ?_, rfl⟩
  · intro header d
    constructor
    · intro h
      simp only [authCheck] at h
      split at h
      · rename_i htake
        rcases hsp : splitFirstColon (header.drop 7) with _ | ⟨d0, h0⟩ <;>
          rw [hsp] at h
        · simp at h
        · simp only at h
          split at h
          · simp at h
          · split at h
            · simp at h
            · rename_i hne
              simp only [AuthResult.ok.injEq] at h
              subst h
              push_neg at hne
              rcases splitFirstColon_some hsp with ⟨hdr, hnotin⟩
              refine ⟨hnotin, ?_⟩
              rw [← hne] at hdr
              rw [← htake, List.append_assoc, ← hdr, List.take_append_drop]
      · simp at h
    · rintro ⟨hnotin, rfl⟩
      simp only [authCheck, List.append_assoc]
      rw [if_pos (htake7 _), hdrop7]
      rw [splitFirstColon_append hnotin]
      simp
  · intro t hn
    simp only [authCheck]
    rw [if_pos (htake7 _), hdrop7]
    rw [splitFirstColon_none hn]
  · intro d h hnotin hne
    simp only [authCheck, List.append_assoc]
    rw [if_pos (htake7 _), hdrop7]
    rw [splitFirstColon_append hnotin]
    simp only
    split
    · rfl
    · rw [if_pos (Ne.symm hne)]

/-- Demo HMAC oracle for the witness. -/
def demoHmac : List Char → List Char :=
  fun d => if d = "dev1".toList then "abc0".toList else "ffff".toList

/-- Witness for C7 at concrete headers: a valid token is accepted with its
deviceId, a colon-free token is rejected as bad format, and a wrong HMAC is
rejected with 401. -/
theorem auth_middleware_spec_witness :
    authCheck demoHmac (some ("Bearer ".toList ++ "dev1".toList ++ ':' :: "abc0".toList))
      = AuthResult.ok "dev1".toList
  ∧ authCheck demoHmac (some ("Bearer ".toList ++ "dev1abc0".toList))
      = AuthResult.unauthorized "Invalid token format"
  ∧ authCheck demoHmac (some ("Bearer ".toList ++ "dev1".toList ++ ':' :: "zzzz".toList))
      = AuthResult.unauthorized "Invalid token" :=
  ⟨((auth_middleware_spec demoHmac).1 _ _).2 ⟨by decide, by decide⟩,
   (auth_middleware_spec demoHmac).2.1 "dev1abc0".toList (by decide),
   (auth_middleware_spec demoHmac).2.2.1 "dev1".toList "zzzz".toList
     (by decide) (by decide)⟩

/-- A queued transfer task (queue.ts QueueTask): its enqueue sequence number
and its retries counter. -/
structure QTask where
  id : Nat
  retries : Nat
deriving DecidableEq, Repr

/-- State of a TransferQueue (queue.ts) together with its observable
history: queue is the waiting list, active the running tasks, timers the
pending setTimeout retries with their delays, resolvedIds and rejectedIds
the settled promises, and startLog the order in which tasks started. -/
structure QState where
  queue : List QTask
  active : List QTask
  timers : List (QTask × Nat)
  resolvedIds : List Nat
  rejectedIds : List Nat
  nextId : Nat
  concurrency : Nat
  startLog : List Nat
deriving DecidableEq, Repr

/-- processNext from queue.ts: return unless a slot is free and the queue
is non-empty; otherwise shift the queue head and start it. -/
def processNext (s : QState) : QState :=
  if s.concurrency ≤ s.active.length then s
  else
    match s.queue with
    | [] => s
    | t :: rest =>
      { s with queue := rest, active := s.active ++ [t], startLog := s.startLog ++ [t.id] }

/-- Events driving a TransferQueue run: enqueue a fresh task, an active
task's promise settling (success or failure), or a retry timer firing
(identified by its index in timers). -/
inductive QEvent where
  | enqueue : QEvent
  | complete : Nat → QEvent
  | fail : Nat → QEvent
  | fire : Nat → QEvent
deriving DecidableEq, Repr

/-- One cooperative step of queue.ts.  enqueue pushes then calls
processNext; a completion resolves, leaves active, and calls processNext; a
failure with retries < MAX_RETRIES increments retries and schedules a timer
with delay RETRY_BACKOFF_MS * 2 ^ (retries - 1), otherwise rejects; a
firing timer unshifts its task onto the queue head and calls processNext.
Events that name no active task or timer are invalid (none). -/
def step (s : QState) : QEvent → Option QState
  | QEvent.enqueue =>
    some (processNext
      { s with queue := s.queue ++ [{ id := s.nextId, retries := 0 }],
               nextId := s.nextId + 1 })
  | QEvent.complete i =>
    match s.active.find? (fun t => t.id == i) with
    | none => none
    | some t =>
      some (processNext
        { s with active := s.active.erase t, resolvedIds := s.resolvedIds ++ [i] })
  | QEvent.fail i =>
    match s.active.find? (fun t => t.id == i) with
    | none => none
    | some t =>
      if t.retries < MAX_RETRIES then
        some (processNext
          { s with active := s.active.erase t,
                   timers := s.timers ++
                     [({ t with retries := t.retries + 1 },
                       RETRY_BACKOFF_MS * 2 ^ (t.retries + 1 - 1))] })
      else
        some (processNext
          { s with active := s.active.erase t, rejectedIds := s.rejectedIds ++ [i] })
  | QEvent.fire i =>
    match s.timers.get? i with
    | none => none
    | some (t, _) =>
      some (processNext { s with timers := s.timers.eraseIdx i, queue := t :: s.queue })

/-- A TransferQueue as constructed (new TransferQueue(concurrency)). -/
def initQState (concurrency : Nat) : QState :=
  { queue := [], active := [], timers := [], resolvedIds := [], rejectedIds := [],
    nextId := 0, concurrency := concurrency, startLog := [] }

/-- Run a list of events from a state, failing on any invalid event. -/
def stepAll (events : List QEvent) (s : QState) : Option QState :=
  events.foldl (fun acc e => acc.bind (fun st => step st e)) (some s)

/-- Run a TransferQueue with the given concurrency through a list of
events. -/
def runQ (concurrency : Nat) (events : List QEvent) : Option QState :=
  stepAll events (initQState concurrency)

lemma stepAll_none (events : List QEvent) :
    events.foldl (fun acc e => acc.bind (fun st => step st e)) none = none := by
  induction events with
  | nil => rfl
  | cons e tl ih => simpa using ih

lemma stepAll_inv (P : QState → Prop)
    (hstep : ∀ s e s', P s → step s e = some s' → P s') :
    ∀ (events : List QEvent) (s s' : QState), P s → stepAll events s = some s' → P s' := by
  intro events
  induction events with
  | nil =>
    intro s s' hP h
    simp [stepAll] at h
    exact h ▸ hP
  | cons e tl ih =>
    intro s s' hP h
    unfold stepAll at h
    rw [List.foldl_cons] at h
    simp only [Option.some_bind] at h
    cases hs : step s e with
    | none =>
      rw [hs] at h
      rw [stepAll_none] at h
      cases h
    | some s1 =>
      rw [hs] at h
      exact ih s1 s' (hstep s e s1 hP hs) h

lemma processNext_concurrency (s : QState) :
    (processNext s).concurrency = s.concurrency := by
  unfold processNext
  repeat' split
  all_goals rfl

lemma processNext_timers (s : QState) : (processNext s).timers = s.timers := by
  unfold processNext
  repeat' split
  all_goals rfl

lemma processNext_rejectedIds (s : QState) :
    (processNext s).rejectedIds = s.rejectedIds := by
  unfold processNext
  repeat' split
  all_goals rfl

lemma processNext_active_le (s : QState) (h : s.active.length ≤ s.concurrency) :
    (processNext s).active.length ≤ s.concurrency := by
  unfold processNext
  split
  · exact h
  · rename_i hlt
    split
    · exact h
    · simp only [List.length_append, List.length_cons, List.length_nil]
      omega

lemma step_bounded {c : Nat} (s : QState) (e : QEvent) (s' : QState)
    (hP : s.active.length ≤ s.concurrency ∧ s.concurrency = c)
    (hs : step s e = some s') :
    s'.active.length ≤ s'.concurrency ∧ s'.concurrency = c := by
  obtain ⟨hle, hc⟩ := hP
  have herase : ∀ t, (s.active.erase t).length ≤ s.active.length :=
    fun t => (List.erase_sublist t s.active).length_le
  cases e with
  | enqueue =>
    simp only [step] at hs
    cases hs
    constructor
    · rw [processNext_concurrency]
      exact processNext_active_le _ hle
    · rw [processNext_concurrency]
      exact hc
  | complete i =>
    simp only [step] at hs
    cases hf : s.active.find? (fun t => t.id == i) with
    | none => rw [hf] at hs; cases hs
    | some t =>
      rw [hf] at hs
      cases hs
      constructor
      · rw [processNext_concurrency]
        exact processNext_active_le _ (le_trans (herase t) hle)
      · rw [processNext_concurrency]
        exact hc
  | fail i =>
    simp only [step] at hs
    cases hf : s.active.find? (fun t => t.id == i) with
    | none => rw [hf] at hs; cases hs
    | some t =>
      rw [hf] at hs
      dsimp only at hs
      by_cases hr : t.retries < MAX_RETRIES
      · rw [if_pos hr] at hs
        cases hs
        refine ⟨?_, ?_⟩ <;> rw [processNext_concurrency]
        · exact processNext_active_le _ (le_trans (herase t) hle)
        · exact hc
      · rw [if_neg hr] at hs
        cases hs
        refine ⟨?_, ?_⟩ <;> rw [processNext_concurrency]
        · exact processNext_active_le _ (le_trans (herase t) hle)
        · exact hc
  | fire i =>
    simp only [step] at hs
    cases hf : s.timers.get? i with
    | none => rw [hf] at hs; cases hs
    | some td =>
      rw [hf] at hs
      cases td with
      | mk t d =>
        simp only at hs
        cases hs
        constructor
        · rw [processNext_concurrency]
          exact processNext_active_le _ hle
        · rw [processNext_concurrency]
          exact hc

lemma stepAll_inv_mem (P : QState → Prop) :
    ∀ (events : List QEvent) (s s' : QState),
      (∀ s0 e s1, e ∈ events → P s0 → step s0 e = some s1 → P s1) →
      P s → stepAll events s = some s' → P s' := by
  intro events
  induction events with
  | nil =>
    intro s s' _ hP h
    simp [stepAll] at h
    exact h ▸ hP
  | cons e tl ih =>
    intro s s' hstep hP h
    unfold stepAll at h
    rw [List.foldl_cons] at h
    simp only [Option.some_bind] at h
    cases hs : step s e with
    | none =>
      rw [hs] at h
      rw [stepAll_none] at h
      cases h
    | some s1 =>
      rw [hs] at h
      exact ih s1 s'
        (fun s0 e0 s2 he0 => hstep s0 e0 s2 (List.mem_cons_of_mem _ he0))
        (hstep s e s1 (List.mem_cons_self _ _) hP hs) h

/-- FIFO invariant of a TransferQueue run without failures: the started ids
are exactly 0, 1, 2, ... in order, and the waiting queue holds the
remaining ids in enqueue order. -/
def QInvF (s : QState) : Prop :=
  s.startLog = List.range s.startLog.length
  ∧ s.queue.map (fun t => t.id)
      = List.range' s.startLog.length (s.nextId - s.startLog.length)
  ∧ s.startLog.length ≤ s.nextId
  ∧ s.timers = []

lemma processNext_qinvF (s : QState) (h : QInvF s) : QInvF (processNext s) := by
  obtain ⟨h1, h2, h3, h4⟩ := h
  unfold processNext
  split
  · exact ⟨h1, h2, h3, h4⟩
  · split
    · exact ⟨h1, h2, h3, h4⟩
    · rename_i t rest hq
      rw [hq] at h2
      simp only [List.map_cons] at h2
      cases hk : s.nextId - s.startLog.length with
      | zero => rw [hk] at h2; simp [List.range'] at h2
      | succ j =>
        rw [hk, List.range'_succ] at h2
        have hid : t.id = s.startLog.length := (List.cons.injEq _ _ _ _ ▸ h2).1
        have hrest : rest.map (fun t => t.id)
            = List.range' (s.startLog.length + 1) j := (List.cons.injEq _ _ _ _ ▸ h2).2
        refine ⟨?_, ?_, ?_, h4⟩
        · simp only [List.length_append, List.length_cons, List.length_nil]
          rw [List.range_succ, ← h1, hid]
        · simp only [List.length_append, List.length_cons, List.length_nil]
          rw [hrest]
          congr 1
          omega
        · simp only [List.length_append, List.length_cons, List.length_nil]
          omega

lemma step_qinvF (s : QState) (e : QEvent) (s' : QState)
    (he : ∀ i, e ≠ QEvent.fail i) (h : QInvF s) (hs : step s e = some s') :
    QInvF s' := by
  obtain ⟨h1, h2, h3, h4⟩ := h
  cases e with
  | enqueue =>
    simp only [step] at hs
    cases hs
    apply processNext_qinvF
    refine ⟨h1, ?_, ?_, h4⟩
    · simp only [List.map_append, List.map_cons, List.map_nil, h2]
      rw [show s.nextId + 1 - s.startLog.length = (s.nextId - s.startLog.length) + 1
          from by omega]
      rw [List.range'_concat]
      congr 2
      omega
    · simp only
      omega
  | complete i =>
    simp only [step] at hs
    cases hf : s.active.find? (fun t => t.id == i) with
    | none => rw [hf] at hs; cases hs
    | some t =>
      rw [hf] at hs
      cases hs
      exact processNext_qinvF _ ⟨h1, h2, h3, h4⟩
  | fail i => exact absurd rfl (he i)
  | fire i =>
    simp only [step] at hs
    rw [h4] at hs
    simp only [List.get?_nil] at hs
    cases hs

/-- C6: in every TransferQueue run, (1) at most concurrency tasks are
active at any moment; (2) when no task fails, tasks start in FIFO enqueue
order (the start log is 0, 1, 2, ...); (3) a failure with fewer than
MAX_RETRIES = 3 retries schedules exactly one retry timer whose delay is
RETRY_BACKOFF_MS * 2 ^ (attempt - 1), i.e. 1000, 2000, 4000 ms for the
defaults; (4) a firing retry timer re-inserts its task at the head of the
queue (or starts it at once when a slot is free); (5) a failure after
MAX_RETRIES retries rejects the task's promise. -/
theorem transferQueue_spec :
    (∀ (c : Nat) (events : List QEvent) (s : QState),
       runQ c events = some s → s.active.length ≤ c)
  ∧ (∀ (c : Nat) (events : List QEvent) (s : QState),
       runQ c events = some s → (∀ i, QEvent.fail i ∉ events) →
       s.startLog = List.range s.startLog.length)
  ∧ (∀ (s : QState) (i : Nat) (t : QTask) (s' : QState),
       s.active.find? (fun u => u.id == i) = some t → t.retries < MAX_RETRIES →
       step s (QEvent.fail i) = some s' →
       s'.timers = s.timers ++ [({ t with retries := t.retries + 1 },
         RETRY_BACKOFF_MS * 2 ^ t.retries)]
       ∧ RETRY_BACKOFF_MS * 2 ^ 0 = 1000 ∧ RETRY_BACKOFF_MS * 2 ^ 1 = 2000
       ∧ RETRY_BACKOFF_MS * 2 ^ 2 = 4000)
  ∧ (∀ (s : QState) (i : Nat) (t : QTask) (d : Nat) (s' : QState),
       s.timers.get? i = some (t, d) → step s (QEvent.fire i) = some s' →
       (s'.active = s.active ++ [t] ∧ s'.queue = s.queue
          ∧ s.active.length < s.concurrency)
       ∨ (s'.queue = t :: s.queue ∧ s'.active = s.active))
  ∧ (∀ (s : QState) (i : Nat) (t : QTask) (s' : QState),
       s.active.find? (fun u => u.id == i) = some t → ¬ t.retries < MAX_RETRIES →
       step s (QEvent.fail i) = some s' → i ∈ s'.rejectedIds) := by
  refine ⟨?_, ?_, ?_, ?_, ?_⟩
  · intro c events s h
    have hinv := stepAll_inv
      (fun st => st.active.length ≤ st.concurrency ∧ st.concurrency = c)
      (fun s0 e s1 => step_bounded s0 e s1)
      events (initQState c) s ⟨by simp [initQState], rfl⟩ h
    rw [← hinv.2]
    exact hinv.1
  · intro c events s h hnf
    have hinv := stepAll_inv_mem QInvF events (initQState c) s
      (fun s0 e s1 he hP hstep =>
        step_qinvF s0 e s1 (fun i hei => hnf i (hei ▸ he)) hP hstep)
      ⟨rfl, by simp [initQState], by simp [initQState], rfl⟩ h
    exact hinv.1
  · intro s i t s' hf hr hs
    simp only [step] at hs
    rw [hf] at hs
    dsimp only at hs
    rw [if_pos hr] at hs
    cases hs
    refine ⟨?_, by decide, by decide, by decide⟩
    rw [processNext_timers]
    simp only [Nat.add_sub_cancel]
  · intro s i t d s' ht hs
    simp only [step] at hs
    rw [ht] at hs
    dsimp only at hs
    cases hs
    unfold processNext
    split
    · rename_i hge
      right
      exact ⟨rfl, rfl⟩
    · rename_i hlt
      left
      simp only [not_le] at hlt
      exact ⟨rfl, rfl, hlt⟩
  · intro s i t s' hf hr hs
    simp only [step] at hs
    rw [hf] at hs
    dsimp only at hs
    rw [if_neg hr] at hs
    cases hs
    rw [processNext_rejectedIds]
    simp

/-- Witness for C6: a bounded run of three enqueues at concurrency 2, the
same run checked for FIFO starts, a first failure scheduling a 2000 ms
timer, a timer firing into a free slot, and a fourth failure rejecting. -/
theorem transferQueue_spec_witness :
    (({ queue := [{ id := 2, retries := 0 }],
        active := [{ id := 0, retries := 0 }, { id := 1, retries := 0 }],
        timers := [], resolvedIds := [], rejectedIds := [], nextId := 3,
        concurrency := 2, startLog := [0, 1] } : QState).active.length ≤ 2)
  ∧ (({ queue := [{ id := 2, retries := 0 }],
        active := [{ id := 0, retries := 0 }, { id := 1, retries := 0 }],
        timers := [], resolvedIds := [], rejectedIds := [], nextId := 3,
        concurrency := 2, startLog := [0, 1] } : QState).startLog
      = List.range ([0, 1] : List Nat).length)
  ∧ (({ queue := [], active := [], timers := [({ id := 0, retries := 2 }, 2000)],
        resolvedIds := [], rejectedIds := [], nextId := 1, concurrency := 1,
        startLog := [0] } : QState).timers
      = [] ++ [({ id := 0, retries := 2 }, RETRY_BACKOFF_MS * 2 ^ 1)])
  ∧ (({ queue := [], active := [{ id := 0, retries := 1 }],
        timers := [], resolvedIds := [], rejectedIds := [], nextId := 1,
        concurrency := 1, startLog := [0, 0] } : QState).active
        = [] ++ [{ id := 0, retries := 1 }]
      ∨ (({ queue := [], active := [{ id := 0, retries := 1 }],
            timers := [], resolvedIds := [], rejectedIds := [], nextId := 1,
            concurrency := 1, startLog := [0, 0] } : QState).queue
          = [{ id := 0, retries := 1 }]))
  ∧ (0 ∈ (({ queue := [], active := [], timers := [], resolvedIds := [],
             rejectedIds := [0], nextId := 1, concurrency := 1,
             startLog := [0] } : QState).rejectedIds)) := by
  refine ⟨?_, ?_, ?_, ?_, ?_⟩
  · exact transferQueue_spec.1 2 [QEvent.enqueue, QEvent.enqueue, QEvent.enqueue] _
      (by decide)
  · exact transferQueue_spec.2.1 2 [QEvent.enqueue, QEvent.enqueue, QEvent.enqueue] _
      (by decide) (by intro i hmem; simp [List.mem_cons] at hmem)
  · exact (transferQueue_spec.2.2.1
      { queue := [], active := [{ id := 0, retries := 1 }], timers := [],
        resolvedIds := [], rejectedIds := [], nextId := 1, concurrency := 1,
        startLog := [0] }
      0 { id := 0, retries := 1 }
      { queue := [], active := [], timers := [({ id := 0, retries := 2 }, 2000)],
        resolvedIds := [], rejectedIds := [], nextId := 1, concurrency := 1,
        startLog := [0] }
      (by decide) (by decide) (by decide)).1
  · rcases transferQueue_spec.2.2.2.1
      { queue := [], active := [], timers := [({ id := 0, retries := 1 }, 1000)],
        resolvedIds := [], rejectedIds := [], nextId := 1, concurrency := 1,
        startLog := [0] }
      0 { id := 0, retries := 1 } 1000
      { queue := [], active := [{ id := 0, retries := 1 }], timers := [],
        resolvedIds := [], rejectedIds := [], nextId := 1, concurrency := 1,
        startLog := [0, 0] }
      (by decide) (by decide) with h | h
    · exact Or.inl h.1
    · exact Or.inr h.1
  · exact transferQueue_spec.2.2.2.2
      { queue := [], active := [{ id := 0, retries := 3 }], timers := [],
        resolvedIds := [], rejectedIds := [], nextId := 1, concurrency := 1,
        startLog := [0] }
      0 { id := 0, retries := 3 }
      { queue := [], active := [], timers := [], resolvedIds := [],
        rejectedIds := [0], nextId := 1, concurrency := 1, startLog := [0] }
      (by decide) (by decide) (by decide)

/-- First replace of isExcluded (merger.ts): escape every dot,
pattern.replace of each dot by backslash dot. -/
def replaceDots : List Char → List Char
  | [] => []
  | c :: cs => if c = '.' then '\\' :: '.' :: replaceDots cs else c :: replaceDots cs

/-- Second replace: every double star becomes dot star (global,
left-to-right, non-overlapping, as String.replace scans). -/
def replaceDoubleStar : List Char → List Char
  | '*' :: '*' :: cs => '.' :: '*' :: replaceDoubleStar cs
  | c :: cs => c :: replaceDoubleStar cs
  | [] => []

/-- Third replace: every star whose preceding subject character is not a
dot (the negative lookbehind) becomes the character class of non-slash
characters followed by star; prev tracks the previously scanned subject
character. -/
def replaceStarLB (prev : Option Char) : List Char → List Char
  | [] => []
  | c :: cs =>
    if c = '*' ∧ prev ≠ some '.' then
      '[' :: '^' :: '/' :: ']' :: '*' :: replaceStarLB (some c) cs
    else
      c :: replaceStarLB (some c) cs

/-- Atoms of the regex fragment the pipeline emits. -/
inductive RAtom where
  | lit : Char → RAtom
  | anyChar : RAtom
  | notSlash : RAtom
deriving DecidableEq, Repr

/-- Tokens: a single atom or a starred atom. -/
inductive RTok where
  | one : RAtom → RTok
  | star : RAtom → RTok
deriving DecidableEq, Repr

/-- Regex metacharacters outside the fragment the pipeline emits; a pattern
compiling to a regex containing one of these unescaped is outside this
embedding, and parseRegex answers none. -/
def isSpecial (c : Char) : Bool :=
  c == '*' || c == '+' || c == '?' || c == '(' || c == ')' || c == '[' || c == ']' ||
  c == '\x7b' || c == '\x7d' || c == '|' || c == '^' || c == '$' || c == '\\'

/-- Parse the emitted regex body into tokens: backslash escapes, the
non-slash class, the any-character dot, and ordinary literals, each with an
optional postfix star; none on a metacharacter outside the fragment. -/
def parseRegex : List Char → Option (List RTok)
  | [] => some []
  | c :: cs =>
    if c = '\\' then
      match cs with
      | [] => none
      | d :: cs' =>
        if cs'.head? = some '*' then
          (parseRegex cs'.tail).map (fun ts => RTok.star (RAtom.lit d) :: ts)
        else
          (parseRegex cs').map (fun ts => RTok.one (RAtom.lit d) :: ts)
    else if c = '[' then
      if cs.take 3 = ['^', '/', ']'] then
        if (cs.drop 3).head? = some '*' then
          (parseRegex (cs.drop 3).tail).map (fun ts => RTok.star RAtom.notSlash :: ts)
        else
          (parseRegex (cs.drop 3)).map (fun ts => RTok.one RAtom.notSlash :: ts)
      else none
    else if isSpecial c then none
    else
      if cs.head? = some '*' then
        (parseRegex cs.tail).map (fun ts =>
          RTok.star (if c = '.' then RAtom.anyChar else RAtom.lit c) :: ts)
      else
        (parseRegex cs).map (fun ts =>
          RTok.one (if c = '.' then RAtom.anyChar else RAtom.lit c) :: ts)
termination_by l => l.length
decreasing_by
  all_goals simp_all [List.length_tail, List.length_drop]
  all_goals omega

set_option maxHeartbeats 4000000 in
lemma parseRegex_nil : parseRegex [] = some [] := by
  rw [parseRegex]

/-- JS line terminators, which the regex dot does not match. -/
def lineTerm (c : Char) : Bool :=
  c == '\n' || c == '\r' || c == ' ' || c == ' '

/-- Whether an atom matches one character (JS regex test semantics). -/
def amatch : RAtom → Char → Bool
  | RAtom.lit c', c => c' == c
  | RAtom.anyChar, c => !(lineTerm c)
  | RAtom.notSlash, c => c != '/'

/-- Acceptance of a token list against a character list: the whole subject
must be consumed (the compiled regex is anchored with caret and dollar). -/
def rmatch : List RTok → List Char → Bool
  | [], [] => true
  | [], _ :: _ => false
  | RTok.one _ :: _, [] => false
  | RTok.one a :: ts, c :: cs => amatch a c && rmatch ts cs
  | RTok.star _ :: ts, [] => rmatch ts []
  | RTok.star a :: ts, c :: cs =>
    rmatch ts (c :: cs) || (amatch a c && rmatch (RTok.star a :: ts) cs)
termination_by ts s => (ts.length, s.length)

/-- Compile one exclude pattern exactly as isExcluded builds its RegExp:
the three replaces, then the anchored-regex reading. -/
def compilePattern (p : List Char) : Option (List RTok) :=
  parseRegex (replaceStarLB none (replaceDoubleStar (replaceDots p)))

/-- isExcluded from merger.ts: true when some configured pattern's compiled
regex matches the whole path; none when a pattern compiles outside the
embedded regex fragment. -/
def isExcludedQ (patterns : List (List Char)) (path : List Char) : Option Bool :=
  (patterns.mapM compilePattern).map (fun rs => rs.any (fun r => rmatch r path))

/-- The paths kept by buildLocalManifest (merger.ts): vault files whose
path is not excluded; none when a pattern compiles outside the fragment. -/
def buildLocalManifestPaths (patterns : List (List Char))
    (vaultPaths : List (List Char)) : Option (List (List Char)) :=
  (patterns.mapM compilePattern).map
    (fun rs => vaultPaths.filter (fun p => !(rs.any (fun r => rmatch r p))))

/-- Documented glob semantics with the match anchored at both ends: double
star matches any characters including slash, single star any characters
except slash, and other characters verbatim. -/
def specGlobMatch : List Char → List Char → Bool
  | [], [] => true
  | [], _ :: _ => false
  | '*' :: '*' :: ps, s =>
    specGlobMatch ps s ||
      (match s with
       | [] => false
       | _ :: s' => specGlobMatch ('*' :: '*' :: ps) s')
  | '*' :: ps, s =>
    specGlobMatch ps s ||
      (match s with
       | [] => false
       | c :: s' => (c != '/') && specGlobMatch ('*' :: ps) s')
  | _ :: _, [] => false
  | c :: ps, x :: s => (c == x) && specGlobMatch ps s
termination_by ps s => (ps.length, s.length)

/-- Documented glob semantics anchored only at the start of the path, as
the claim words it: a pattern matching some prefix of the path excludes
it. -/
def specGlobMatchStartAnchored : List Char → List Char → Bool
  | [], _ => true
  | '*' :: '*' :: ps, s =>
    specGlobMatchStartAnchored ps s ||
      (match s with
       | [] => false
       | _ :: s' => specGlobMatchStartAnchored ('*' :: '*' :: ps) s')
  | '*' :: ps, s =>
    specGlobMatchStartAnchored ps s ||
      (match s with
       | [] => false
       | c :: s' => (c != '/') && specGlobMatchStartAnchored ('*' :: ps) s')
  | _ :: _, [] => false
  | c :: ps, x :: s => (c == x) && specGlobMatchStartAnchored ps s
termination_by ps s => (ps.length, s.length)

/-- Characters an exclude pattern may contain for this embedding: anything
that is not a regex metacharacter, plus the star itself. -/
def patternChar (c : Char) : Bool :=
  !(isSpecial c) || c == '*'

/-- Whether a pattern starts with a single star (a star not followed by a
second star). -/
def startsSingleStar : List Char → Bool
  | '*' :: '*' :: _ => false
  | '*' :: _ => true
  | _ => false

/-- No dot immediately followed by a single star: in such patterns the
escaped dot captures the star (backslash dot star matches runs of dots),
which is outside the documented glob semantics. -/
def noDotStar : List Char → Bool
  | '.' :: '*' :: '*' :: rest => noDotStar rest
  | '.' :: '*' :: _ => false
  | _ :: rest => noDotStar rest
  | [] => true

/-- The token list the pipeline produces for a well-formed pattern, by
direct recursion: double star to starred any, single star to starred
non-slash, anything else literal. -/
def tokensOf : List Char → List RTok
  | [] => []
  | '*' :: '*' :: ps => RTok.star RAtom.anyChar :: tokensOf ps
  | '*' :: ps => RTok.star RAtom.notSlash :: tokensOf ps
  | c :: ps => RTok.one (RAtom.lit c) :: tokensOf ps

section GlobStepLemmas

lemma replaceDots_cons_ne {c : Char} (h : c ≠ '.') (cs : List Char) :
    replaceDots (c :: cs) = c :: replaceDots cs := by
  simp [replaceDots, h]

lemma replaceDots_cons_dot (cs : List Char) :
    replaceDots ('.' :: cs) = '\\' :: '.' :: replaceDots cs := by
  simp [replaceDots]

lemma replaceDoubleStar_pair (cs : List Char) :
    replaceDoubleStar ('*' :: '*' :: cs) = '.' :: '*' :: replaceDoubleStar cs := rfl

lemma replaceDoubleStar_cons_ne {c : Char} (h : c ≠ '*') (cs : List Char) :
    replaceDoubleStar (c :: cs) = c :: replaceDoubleStar cs := by
  cases cs with
  | nil => simp [replaceDoubleStar, h]
  | cons d cs' =>
    by_cases hd : d = '*'
    · subst hd
      by_cases hc : c = '*'
      · exact absurd hc h
      · simp [replaceDoubleStar, hc]
    · simp [replaceDoubleStar, h, hd]

lemma replaceDoubleStar_star_single {c : Char} (h : c ≠ '*') (cs : List Char) :
    replaceDoubleStar ('*' :: c :: cs) = '*' :: replaceDoubleStar (c :: cs) := by
  simp [replaceDoubleStar, h]

lemma replaceDoubleStar_star_nil : replaceDoubleStar ['*'] = ['*'] := rfl

lemma replaceStarLB_cons_star {prev : Option Char} (h : prev ≠ some '.')
    (cs : List Char) :
    replaceStarLB prev ('*' :: cs)
      = '[' :: '^' :: '/' :: ']' :: '*' :: replaceStarLB (some '*') cs := by
  simp [replaceStarLB, h]

lemma replaceStarLB_cons_ne {prev : Option Char} {c : Char} (h : c ≠ '*')
    (cs : List Char) :
    replaceStarLB prev (c :: cs) = c :: replaceStarLB (some c) cs := by
  simp [replaceStarLB, h]

lemma replaceStarLB_star_after_dot (cs : List Char) :
    replaceStarLB (some '.') ('*' :: cs) = '*' :: replaceStarLB (some '*') cs := by
  simp [replaceStarLB]

lemma replaceStarLB_head_ne_star {w : List Char} {prev : Option Char}
    (h : w.head? ≠ some '*' ∨ prev ≠ some '.') :
    (replaceStarLB prev w).head? ≠ some '*' := by
  cases w with
  | nil => simp [replaceStarLB]
  | cons c cs =>
    by_cases hc : c = '*' ∧ prev ≠ some '.'
    · simp [replaceStarLB, hc]
    · have hcne : c ≠ '*' := by
        intro hceq
        subst hceq
        rcases h with h | h
        · simp at h
        · exact hc ⟨rfl, h⟩
      rw [replaceStarLB_cons_ne hcne]
      simpa using hcne

lemma rds_rd_head_ne_star {rest : List Char} (h : startsSingleStar rest = false) :
    (replaceDoubleStar (replaceDots rest)).head? ≠ some '*' := by
  cases rest with
  | nil => simp [replaceDots, replaceDoubleStar]
  | cons c cs =>
    by_cases hc : c = '.'
    · subst hc
      rw [replaceDots_cons_dot]
      rw [replaceDoubleStar_cons_ne (by decide)]
      simp
    · rw [replaceDots_cons_ne hc]
      by_cases hcs : c = '*'
      · subst hcs
        cases cs with
        | nil => simp [startsSingleStar] at h
        | cons d cs' =>
          by_cases hd : d = '*'
          · subst hd
            rw [replaceDots_cons_ne (by decide)]
            rw [replaceDoubleStar_pair]
            simp
          · simp [startsSingleStar, hd] at h
      · rw [replaceDoubleStar_cons_ne hcs]
        simpa using hcs

end GlobStepLemmas

section ParseStepLemmas

lemma parseRegex_lit {c : Char} {z : List Char} (h1 : isSpecial c = false)
    (h2 : c ≠ '.') (hz : z.head? ≠ some '*') :
    parseRegex (c :: z)
      = (parseRegex z).map (fun ts => RTok.one (RAtom.lit c) :: ts) := by
  have hbs : c ≠ '\\' := by
    intro hc; subst hc; simp [isSpecial] at h1
  have hlb : c ≠ '[' := by
    intro hc; subst hc; simp [isSpecial] at h1
  cases z with
  | nil =>
    conv_lhs => rw [parseRegex]
    simp [h1, h2, hbs, hlb, parseRegex_nil]
  | cons d z' =>
    have hd : d ≠ '*' := by simpa using hz
    conv_lhs => rw [parseRegex]
    simp [h1, h2, hbs, hlb, hd]

lemma parseRegex_dot_star (cs : List Char) :
    parseRegex ('.' :: '*' :: cs)
      = (parseRegex cs).map (fun ts => RTok.star RAtom.anyChar :: ts) := by
  rw [parseRegex]
  simp [isSpecial]

lemma parseRegex_class_star (cs : List Char) :
    parseRegex ('[' :: '^' :: '/' :: ']' :: '*' :: cs)
      = (parseRegex cs).map (fun ts => RTok.star RAtom.notSlash :: ts) := by
  rw [parseRegex]
  simp [isSpecial]

lemma parseRegex_backslash_dot {z : List Char} (h : z.head? ≠ some '*') :
    parseRegex ('\\' :: '.' :: z)
      = (parseRegex z).map (fun ts => RTok.one (RAtom.lit '.') :: ts) := by
  rw [parseRegex]
  simp [h]

lemma parseRegex_backslash_star (d : Char) (cs : List Char) :
    parseRegex ('\\' :: d :: '*' :: cs)
      = (parseRegex cs).map (fun ts => RTok.star (RAtom.lit d) :: ts) := by
  rw [parseRegex]
  simp

end ParseStepLemmas

section TokensOfLemmas

lemma tokensOf_pair (ps : List Char) :
    tokensOf ('*' :: '*' :: ps) = RTok.star RAtom.anyChar :: tokensOf ps := rfl

lemma tokensOf_star_nil : tokensOf ['*'] = [RTok.star RAtom.notSlash] := rfl

lemma tokensOf_star {c : Char} (h : c ≠ '*') (ps : List Char) :
    tokensOf ('*' :: c :: ps) = RTok.star RAtom.notSlash :: tokensOf (c :: ps) := by
  simp [tokensOf, h]

lemma tokensOf_lit {c : Char} (h : c ≠ '*') (ps : List Char) :
    tokensOf (c :: ps) = RTok.one (RAtom.lit c) :: tokensOf ps := by
  simp [tokensOf, h]

lemma replaceDots_head_ne_star {l : List Char} (h : l.head? ≠ some '*') :
    (replaceDots l).head? ≠ some '*' := by
  cases l with
  | nil => simp [replaceDots]
  | cons d t =>
    by_cases hd : d = '.'
    · subst hd
      rw [replaceDots_cons_dot]
      simp
    · rw [replaceDots_cons_ne hd]
      simpa using h

lemma replaceDoubleStar_star_cons {w : List Char} (h : w.head? ≠ some '*') :
    replaceDoubleStar ('*' :: w) = '*' :: replaceDoubleStar w := by
  cases w with
  | nil => exact replaceDoubleStar_star_nil
  | cons d t =>
    have hd : d ≠ '*' := by simpa using h
    exact replaceDoubleStar_star_single hd t

end TokensOfLemmas

/-- Compiling a pattern through the three replaces and the regex parse
yields exactly the token list of the direct glob reading, for patterns made
of allowed characters with no dot immediately before a single star; prev is
the lookbehind context, constrained not to be a dot when the pattern starts
with a single star. -/
lemma compile_chain : ∀ (n : Nat) (ps : List Char), ps.length ≤ n →
    ∀ (prev : Option Char),
    (∀ c ∈ ps, patternChar c = true) → noDotStar ps = true →
    (prev = some '.' → startsSingleStar ps = false) →
    parseRegex (replaceStarLB prev (replaceDoubleStar (replaceDots ps)))
      = some (tokensOf ps) := by
  intro n
  induction n with
  | zero =>
    intro ps hlen prev _ _ _
    have hnil : ps = [] := List.length_eq_zero.1 (Nat.le_zero.1 hlen)
    subst hnil
    simp [replaceDots, replaceDoubleStar, replaceStarLB, parseRegex_nil, tokensOf]
  | succ n ih =>
    intro ps hlen prev hchars hnds hguard
    rcases ps with _ | ⟨c, ps1⟩
    · simp [replaceDots, replaceDoubleStar, replaceStarLB, parseRegex_nil, tokensOf]
    by_cases hc : c = '*'
    · subst hc
      rcases ps1 with _ | ⟨c2, ps2⟩
      · have hprev : prev ≠ some '.' := by
          intro hp
          have := hguard hp
          simp [startsSingleStar] at this
        rw [replaceDots_cons_ne (by decide)]
        rw [show replaceDots [] = [] from rfl]
        rw [replaceDoubleStar_star_nil]
        rw [replaceStarLB_cons_star hprev]
        rw [show replaceStarLB (some '*') [] = [] from rfl]
        rw [parseRegex_class_star, parseRegex_nil]
        rfl
      by_cases hc2 : c2 = '*'
      · subst hc2
        have hlen2 : ps2.length ≤ n := by
          simp only [List.length_cons] at hlen
          omega
        have hch : ∀ x ∈ ps2, patternChar x = true := fun x hx =>
          hchars x (List.mem_cons_of_mem _ (List.mem_cons_of_mem _ hx))
        have hnd : noDotStar ps2 = true := by
          simpa [noDotStar] using hnds
        rw [replaceDots_cons_ne (by decide), replaceDots_cons_ne (by decide)]
        rw [replaceDoubleStar_pair]
        rw [replaceStarLB_cons_ne (by decide)]
        rw [replaceStarLB_star_after_dot]
        rw [parseRegex_dot_star]
        rw [ih ps2 hlen2 (some '*') hch hnd
          (fun hp => absurd (Option.some.inj hp) (by decide))]
        rw [tokensOf_pair]
        rfl
      · have hprev : prev ≠ some '.' := by
          intro hp
          have hss := hguard hp
          simp [startsSingleStar, hc2] at hss
        have hlen2 : (c2 :: ps2).length ≤ n := by
          simp only [List.length_cons] at hlen ⊢
          omega
        have hch : ∀ x ∈ c2 :: ps2, patternChar x = true := fun x hx =>
          hchars x (List.mem_cons_of_mem _ hx)
        have hnd : noDotStar (c2 :: ps2) = true := by
          simpa [noDotStar, hc2] using hnds
        have hhd : (replaceDots (c2 :: ps2)).head? ≠ some '*' :=
          replaceDots_head_ne_star (by simpa using hc2)
        rw [replaceDots_cons_ne (by decide)]
        rw [replaceDoubleStar_star_cons hhd]
        rw [replaceStarLB_cons_star hprev]
        rw [parseRegex_class_star]
        rw [ih (c2 :: ps2) hlen2 (some '*') hch hnd
          (fun hp => absurd (Option.some.inj hp) (by decide))]
        rw [tokensOf_star hc2]
        rfl
    · by_cases hdot : c = '.'
      · subst hdot
        have hana : startsSingleStar ps1 = false ∧ noDotStar ps1 = true := by
          rcases ps1 with _ | ⟨d, t⟩
          · exact ⟨rfl, rfl⟩
          by_cases hd : d = '*'
          · subst hd
            rcases t with _ | ⟨d2, t2⟩
            · simp [noDotStar] at hnds
            by_cases hd2 : d2 = '*'
            · subst hd2
              have ht2 : noDotStar t2 = true := by simpa [noDotStar] using hnds
              constructor
              · simp [startsSingleStar]
              · simpa [noDotStar] using ht2
            · simp [noDotStar, hd2] at hnds
          · constructor
            · simp [startsSingleStar, hd]
            · simpa [noDotStar, hd] using hnds
        have hlen1 : ps1.length ≤ n := by
          simp only [List.length_cons] at hlen
          omega
        have hch : ∀ x ∈ ps1, patternChar x = true := fun x hx =>
          hchars x (List.mem_cons_of_mem _ hx)
        rw [replaceDots_cons_dot]
        rw [replaceDoubleStar_cons_ne (by decide)]
        rw [replaceDoubleStar_cons_ne (by decide)]
        rw [replaceStarLB_cons_ne (by decide)]
        rw [replaceStarLB_cons_ne (by decide)]
        have hhead : (replaceStarLB (some '.')
            (replaceDoubleStar (replaceDots ps1))).head? ≠ some '*' :=
          replaceStarLB_head_ne_star (Or.inl (rds_rd_head_ne_star hana.1))
        rw [parseRegex_backslash_dot hhead]
        rw [ih ps1 hlen1 (some '.') hch hana.2 (fun _ => hana.1)]
        rw [tokensOf_lit (by decide)]
        rfl
      · have hspec : isSpecial c = false := by
          have hp := hchars c (List.mem_cons_self _ _)
          simp [patternChar, hc] at hp
          exact hp
        have hlen1 : ps1.length ≤ n := by
          simp only [List.length_cons] at hlen
          omega
        have hch : ∀ x ∈ ps1, patternChar x = true := fun x hx =>
          hchars x (List.mem_cons_of_mem _ hx)
        have hnd : noDotStar ps1 = true := by
          simpa [noDotStar, hdot] using hnds
        rw [replaceDots_cons_ne hdot]
        rw [replaceDoubleStar_cons_ne hc]
        rw [replaceStarLB_cons_ne hc]
        have hhead : (replaceStarLB (some c)
            (replaceDoubleStar (replaceDots ps1))).head? ≠ some '*' :=
          replaceStarLB_head_ne_star (Or.inr (by simpa using hdot))
        rw [parseRegex_lit hspec hdot hhead]
        rw [ih ps1 hlen1 (some c) hch hnd
          (fun hp => absurd (Option.some.inj hp) hdot)]
        rw [tokensOf_lit hc]
        rfl

lemma tokensOf_star_head {ps : List Char} (h : ps.head? ≠ some '*') :
    tokensOf ('*' :: ps) = RTok.star RAtom.notSlash :: tokensOf ps := by
  cases ps with
  | nil => rfl
  | cons c t => exact tokensOf_star (by simpa using h) t


section SpecGlobUnfold

lemma spec_nil_nil : specGlobMatch [] [] = true := by
  rw [specGlobMatch.eq_def]

lemma spec_nil_cons (x : Char) (s' : List Char) :
    specGlobMatch [] (x :: s') = false := by
  rw [specGlobMatch.eq_def]

lemma spec_pair (ps s : List Char) :
    specGlobMatch ('*' :: '*' :: ps) s
      = (specGlobMatch ps s ||
          (match s with
           | [] => false
           | _ :: s' => specGlobMatch ('*' :: '*' :: ps) s')) := by
  rw [specGlobMatch.eq_def]
  simp

lemma spec_star_one (s : List Char) :
    specGlobMatch ['*'] s
      = (specGlobMatch [] s ||
          (match s with
           | [] => false
           | x :: s' => (x != '/') && specGlobMatch ['*'] s')) := by
  rw [specGlobMatch.eq_def]
  simp

lemma spec_star {c2 : Char} (h : c2 ≠ '*') (ps s : List Char) :
    specGlobMatch ('*' :: c2 :: ps) s
      = (specGlobMatch (c2 :: ps) s ||
          (match s with
           | [] => false
           | x :: s' => (x != '/') && specGlobMatch ('*' :: c2 :: ps) s')) := by
  rw [specGlobMatch.eq_def]
  simp [h]

lemma spec_lit_nil {c : Char} (h : c ≠ '*') (ps : List Char) :
    specGlobMatch (c :: ps) [] = false := by
  rw [specGlobMatch.eq_def]
  simp [h]

lemma spec_lit_cons {c : Char} (h : c ≠ '*') (ps : List Char) (x : Char)
    (s' : List Char) :
    specGlobMatch (c :: ps) (x :: s') = ((c == x) && specGlobMatch ps s') := by
  rw [specGlobMatch.eq_def]
  simp [h]

end SpecGlobUnfold

lemma rmatch_tokensOf : ∀ (n : Nat) (ps s : List Char),
    ps.length + s.length ≤ n →
    (∀ c ∈ s, lineTerm c = false) →
    rmatch (tokensOf ps) s = specGlobMatch ps s := by
  intro n
  induction n with
  | zero =>
    intro ps s hlen _
    have hps : ps = [] := List.length_eq_zero.1 (by omega)
    have hs : s = [] := List.length_eq_zero.1 (by omega)
    subst hps; subst hs
    rw [show tokensOf [] = [] from rfl, rmatch, spec_nil_nil]
  | succ n ih =>
    intro ps s hlen hvalid
    rcases ps with _ | ⟨c, ps1⟩
    · rcases s with _ | ⟨x, s'⟩
      · rw [show tokensOf [] = [] from rfl, rmatch, spec_nil_nil]
      · rw [show tokensOf [] = [] from rfl, rmatch, spec_nil_cons]
    by_cases hc : c = '*'
    · subst hc
      rcases ps1 with _ | ⟨c2, ps2⟩
      · rw [tokensOf_star_nil]
        rcases s with _ | ⟨x, s'⟩
        · rw [rmatch, rmatch, spec_star_one, spec_nil_nil]
          simp
        · rw [rmatch]
          rw [show rmatch [] (x :: s') = false from by rw [rmatch]]
          have hrec := ih ['*'] s'
            (by simp only [List.length_cons, List.length_nil] at hlen ⊢; omega)
            (fun d hd => hvalid d (List.mem_cons_of_mem _ hd))
          rw [tokensOf_star_nil] at hrec
          conv_rhs => rw [spec_star_one]
          rw [hrec, spec_nil_cons]
          simp [amatch]
      · by_cases hc2 : c2 = '*'
        · subst hc2
          rw [tokensOf_pair]
          rcases s with _ | ⟨x, s'⟩
          · rw [rmatch]
            have hrec := ih ps2 []
              (by simp only [List.length_cons, List.length_nil] at hlen ⊢; omega)
              (by intro d hd; simp at hd)
            rw [hrec, spec_pair]
            simp
          · rw [rmatch]
            have h1 := ih ps2 (x :: s')
              (by simp only [List.length_cons, List.length_nil] at hlen ⊢; omega)
              hvalid
            have h2 := ih ('*' :: '*' :: ps2) s'
              (by simp only [List.length_cons, List.length_nil] at hlen ⊢; omega)
              (fun d hd => hvalid d (List.mem_cons_of_mem _ hd))
            rw [tokensOf_pair] at h2
            conv_rhs => rw [spec_pair]
            rw [h1, h2]
            have hx := hvalid x (List.mem_cons_self _ _)
            simp [amatch, hx]
        · rw [tokensOf_star hc2]
          rcases s with _ | ⟨x, s'⟩
          · rw [rmatch]
            have hrec := ih (c2 :: ps2) []
              (by simp only [List.length_cons, List.length_nil] at hlen ⊢; omega)
              (by intro d hd; simp at hd)
            rw [hrec, spec_star hc2]
            simp
          · rw [rmatch]
            have h1 := ih (c2 :: ps2) (x :: s')
              (by simp only [List.length_cons, List.length_nil] at hlen ⊢; omega)
              hvalid
            have h2 := ih ('*' :: c2 :: ps2) s'
              (by simp only [List.length_cons, List.length_nil] at hlen ⊢; omega)
              (fun d hd => hvalid d (List.mem_cons_of_mem _ hd))
            rw [tokensOf_star hc2] at h2
            conv_rhs => rw [spec_star hc2]
            rw [h1, h2]
            simp [amatch]
    · rw [tokensOf_lit hc]
      rcases s with _ | ⟨x, s'⟩
      · rw [rmatch, spec_lit_nil hc]
      · rw [rmatch, spec_lit_cons hc]
        rw [ih ps1 s'
          (by simp only [List.length_cons, List.length_nil] at hlen ⊢; omega)
          (fun d hd => hvalid d (List.mem_cons_of_mem _ hd))]
        simp [amatch]

lemma classify_deleteLocal_local {localM remoteM : SyncManifest}
    {base : Option SyncManifest} {p q : String}
    (h : classify localM remoteM base p = DiffAction.deleteLocal q) :
    ∃ e, getFile localM.files p = some e := by
  simp only [classify] at h
  repeat' split at h
  all_goals simp_all

lemma mapM_compile {patterns : List (List Char)}
    (h : ∀ p ∈ patterns, compilePattern p = some (tokensOf p)) :
    patterns.mapM compilePattern = some (patterns.map tokensOf) := by
  induction patterns with
  | nil => rfl
  | cons p ps ih =>
    rw [List.mapM_cons]
    rw [h p (List.mem_cons_self _ _)]
    rw [ih (fun q hq => h q (List.mem_cons_of_mem _ hq))]
    rfl

/-- Counterexamples to C8 as stated, one per point where the code diverges
from the claim.  (1) Anchoring: the claim's start-anchored reading of
pattern a excludes the path ab, but isExcluded compiles a regex anchored at
both ends and does not.  (2) Dot immediately before a single star: the
documented semantics (dot literal, star any run without slash) matches path
.x with pattern .* , but the code first escapes the dot and the lookbehind
then sees that dot and keeps the star, compiling backslash dot star (a run
of literal dots), which rejects .x.  (3) Line terminators: double star
should match any characters, but it compiles to the regex dot, which
rejects a newline, so the pattern of two stars fails to exclude a path
containing a newline.  (4) The claim's "never produces diff entries" is
false: a path that is excluded (hence absent from the local manifest) but
present in the remote manifest still yields a toDownload entry, because
exclusion filters only buildLocalManifest and nothing filters the diff. -/
theorem isExcluded_claim_counterexamples :
    (specGlobMatchStartAnchored ['a'] ['a', 'b'] = true
      ∧ isExcludedQ [['a']] ['a', 'b'] = some false)
  ∧ (specGlobMatch ['.', '*'] ['.', 'x'] = true
      ∧ isExcludedQ [['.', '*']] ['.', 'x'] = some false)
  ∧ (specGlobMatch ['*', '*'] ['a', '\n', 'b'] = true
      ∧ isExcludedQ [['*', '*']] ['a', '\n', 'b'] = some false)
  ∧ (isExcludedQ [['a']] ['a'] = some true
      ∧ (diffManifests ⟨[], "", ""⟩
           ⟨[("a", ⟨"a", "h1", 5, 7, "dev"⟩)], "", ""⟩ none).toDownload
          = [⟨"a", "h1", 5, 7, "dev"⟩]) := by
  have hca : compilePattern ['a'] = some [RTok.one (RAtom.lit 'a')] :=
    compile_chain 1 ['a'] (by decide) none (by decide) (by decide) (fun h => nomatch h)
  have hmapa : ([['a']] : List (List Char)).mapM compilePattern
      = some [[RTok.one (RAtom.lit 'a')]] := by
    rw [List.mapM_cons, hca]
    rfl
  have hc2 : compilePattern ['.', '*'] = some [RTok.star (RAtom.lit '.')] := by
    unfold compilePattern
    rw [show replaceStarLB none (replaceDoubleStar (replaceDots ['.', '*']))
        = ['\\', '.', '*'] from by decide]
    rw [parseRegex_backslash_star, parseRegex_nil]
    rfl
  have hmap2 : ([['.', '*']] : List (List Char)).mapM compilePattern
      = some [[RTok.star (RAtom.lit '.')]] := by
    rw [List.mapM_cons, hc2]
    rfl
  have hc3 : compilePattern ['*', '*'] = some [RTok.star RAtom.anyChar] := by
    unfold compilePattern
    rw [show replaceStarLB none (replaceDoubleStar (replaceDots ['*', '*']))
        = ['.', '*'] from by decide]
    rw [parseRegex_dot_star, parseRegex_nil]
    rfl
  have hmap3 : ([['*', '*']] : List (List Char)).mapM compilePattern
      = some [[RTok.star RAtom.anyChar]] := by
    rw [List.mapM_cons, hc3]
    rfl
  refine ⟨⟨?_, ?_⟩, ⟨?_, ?_⟩, ⟨?_, ?_⟩, ?_, ?_⟩
  · simp [specGlobMatchStartAnchored]
  · have hr : rmatch [RTok.one (RAtom.lit 'a')] ['a', 'b'] = false := by
      rw [rmatch, rmatch]
      simp [amatch]
    unfold isExcludedQ
    rw [hmapa]
    simp [hr]
  · have e1 : specGlobMatch ['*'] ([] : List Char) = true := by
      rw [spec_star_one, spec_nil_nil]
      simp
    have e2 : specGlobMatch ['*'] ['x'] = true := by
      rw [spec_star_one, spec_nil_cons]
      simp [e1]
    rw [spec_lit_cons (by decide), e2]
    decide
  · have hr1 : rmatch [RTok.star (RAtom.lit '.')] ['x'] = false := by
      rw [rmatch]
      rw [show rmatch [] ['x'] = false from by rw [rmatch]]
      simp [amatch]
    have hr2 : rmatch [RTok.star (RAtom.lit '.')] ['.', 'x'] = false := by
      rw [rmatch]
      rw [show rmatch [] (['.', 'x'] : List Char) = false from by rw [rmatch]]
      rw [hr1]
      simp [amatch]
    unfold isExcludedQ
    rw [hmap2]
    simp [hr2]
  · have g0 : specGlobMatch ['*', '*'] ([] : List Char) = true := by
      rw [spec_pair, spec_nil_nil]
      decide
    have g1 : specGlobMatch ['*', '*'] ['b'] = true := by
      rw [spec_pair, spec_nil_cons]
      simp [g0]
    have g2 : specGlobMatch ['*', '*'] ['\n', 'b'] = true := by
      rw [spec_pair, spec_nil_cons]
      simp [g1]
    rw [spec_pair, spec_nil_cons]
    simp [g2]
  · have hb : rmatch [RTok.star RAtom.anyChar] ['\n', 'b'] = false := by
      rw [rmatch]
      rw [show rmatch [] (['\n', 'b'] : List Char) = false from by rw [rmatch]]
      simp [amatch, lineTerm]
    have ha : rmatch [RTok.star RAtom.anyChar] ['a', '\n', 'b'] = false := by
      rw [rmatch]
      rw [show rmatch [] (['a', '\n', 'b'] : List Char) = false from by rw [rmatch]]
      rw [hb]
      simp [amatch]
    unfold isExcludedQ
    rw [hmap3]
    simp [ha]
  · have hr : rmatch [RTok.one (RAtom.lit 'a')] ['a'] = true := by
      rw [rmatch, rmatch]
      simp [amatch]
    unfold isExcludedQ
    rw [hmapa]
    simp [hr]
  · decide

/-- C8 amended: isExcluded matches each exclude pattern against the ENTIRE
path: the compiled regex is anchored with caret and dollar, so a pattern
matching only a proper prefix of the path does not exclude it.  Because
only the dot is escaped, the documented glob reading holds exactly on the
glob fragment: for patterns built from stars and characters without regex
meaning, with no dot immediately before a single star (there the escaped
dot's lookbehind captures the star, so backslash dot star matches a run of
literal dots instead), and on paths free of JS line terminators (which the
regex dot compiled from a double star rejects), isExcluded agrees exactly
with the both-ends-anchored glob semantics: double star matches any run of
characters including slash, single star any run without slash, every other
character (dot included) itself.  A path matching some exclude pattern is
never added to the local manifest; exclusion does not prevent diff entries
outright (an excluded path present in the remote manifest still yields a
download), but a path absent from the local manifest never contributes
entries to toUpload or toDeleteLocal. -/
theorem isExcluded_glob_semantics :
    (∀ (patterns : List (List Char)) (path : List Char),
       (∀ p ∈ patterns, (∀ c ∈ p, patternChar c = true) ∧ noDotStar p = true) →
       (∀ c ∈ path, lineTerm c = false) →
       isExcludedQ patterns path
         = some (patterns.any (fun p => specGlobMatch p path)))
  ∧ (∀ (patterns vaultPaths built : List (List Char)) (q : List Char),
       buildLocalManifestPaths patterns vaultPaths = some built →
       isExcludedQ patterns q = some true → q ∉ built)
  ∧ (∀ (localM remoteM : SyncManifest) (base : Option SyncManifest) (q : String),
       wellFormed localM → getFile localM.files q = none →
       (diffManifests localM remoteM base).toUpload.any (fun e => e.path == q) = false
       ∧ (diffManifests localM remoteM base).toDeleteLocal.any (fun p => p == q) = false) := by
  refine ⟨?_, ?_, ?_⟩
  · intro patterns path hwf hpath
    have hcomp : ∀ p ∈ patterns, compilePattern p = some (tokensOf p) := fun p hp =>
      compile_chain p.length p le_rfl none (hwf p hp).1 (hwf p hp).2 (fun h => nomatch h)
    unfold isExcludedQ
    rw [mapM_compile hcomp]
    simp only [Option.map_some', Option.some.injEq]
    have hpt : ∀ p : List Char,
        rmatch (tokensOf p) path = specGlobMatch p path := fun p =>
      rmatch_tokensOf (p.length + path.length) p path le_rfl hpath
    have hmapany : ∀ (l : List (List Char)),
        (List.map tokensOf l).any (fun r => rmatch r path)
          = l.any (fun p => specGlobMatch p path) := by
      intro l
      induction l with
      | nil => rfl
      | cons p ps ih =>
        simp only [List.map_cons, List.any_cons, ih, hpt]
    exact hmapany patterns
  · intro patterns vaultPaths built q hbuild hexq hmem
    unfold buildLocalManifestPaths at hbuild
    unfold isExcludedQ at hexq
    cases hm : patterns.mapM compilePattern with
    | none =>
      rw [hm] at hbuild
      cases hbuild
    | some rs =>
      rw [hm] at hbuild hexq
      simp only [Option.map_some', Option.some.injEq] at hbuild hexq
      subst hbuild
      have hf := (List.mem_filter.1 hmem).2
      rw [hexq] at hf
      cases hf
  · intro localM remoteM base q wfl hnone
    constructor
    · exact toUpload_any_false wfl (fun e hcu => by
        have := classify_upload hcu
        rw [hnone] at this
        cases this)
    · refine toDeleteLocal_any_false ?_
      intro hcd
      rcases classify_deleteLocal_local hcd with ⟨e, he⟩
      rw [hnone] at he
      cases he

theorem isExcluded_glob_semantics_witness :
    isExcludedQ [['a']] ['b', 'c']
      = some (([['a']] : List (List Char)).any (fun p => specGlobMatch p ['b', 'c']))
  ∧ (['a'] : List Char) ∉ [(['b'] : List Char)]
  ∧ (diffManifests ⟨[], "", ""⟩ ⟨[], "", ""⟩ none).toUpload.any
      (fun e => e.path == "q") = false
  ∧ (diffManifests ⟨[], "", ""⟩ ⟨[], "", ""⟩ none).toDeleteLocal.any
      (fun p => p == "q") = false := by
  have hcomp1 : compilePattern ['a'] = some [RTok.one (RAtom.lit 'a')] :=
    compile_chain 1 ['a'] (by decide) none (by decide) (by decide) (fun h => nomatch h)
  have hmapm : ([['a']] : List (List Char)).mapM compilePattern
      = some [[RTok.one (RAtom.lit 'a')]] := by
    rw [List.mapM_cons, hcomp1]
    rfl
  have hra : rmatch [RTok.one (RAtom.lit 'a')] ['a'] = true := by
    rw [rmatch, rmatch]
    simp [amatch]
  have hrb : rmatch [RTok.one (RAtom.lit 'a')] ['b'] = false := by
    rw [rmatch]
    simp [amatch]
  have hbuild : buildLocalManifestPaths [['a']] [['a'], ['b']] = some [['b']] := by
    unfold buildLocalManifestPaths
    rw [hmapm]
    simp [List.filter, hra, hrb]
  have hexq : isExcludedQ [['a']] ['a'] = some true := by
    unfold isExcludedQ
    rw [hmapm]
    simp [hra]
  have h3 := isExcluded_glob_semantics.2.2 ⟨[], "", ""⟩ ⟨[], "", ""⟩ none "q"
    (by decide) (by decide)
  exact ⟨isExcluded_glob_semantics.1 [['a']] ['b', 'c'] (by decide) (by decide),
    isExcluded_glob_semantics.2.1 [['a']] [['a'], ['b']] [['b']] ['a'] hbuild hexq,
    h3.1, h3.2⟩
